import Mathlib
set_option maxRecDepth 10000

/-!
Shallow embedding (in Lean 4) of the extraction / validation / repair core of
`agents_demo.py` (Planner → Reviewer → Finalizer pipeline).

Conventions of the embedding:
* Python strings are modelled as `List Char`; `Str` abbreviates this.
* Python's `re` word character class `\w` is modelled on its sub-U+0100
  fragment (ASCII alphanumerics, underscore, and the Latin-1 word characters —
  the source's mojibake `rstrip` set makes the Latin-1 letter `â` (U+00E2)
  load-bearing); `str.strip` and `str.lower` are modelled on their ASCII
  fragment (explicit ASCII whitespace, `Char.toLower`), which covers every
  behaviour the claims exercise.
* `json.loads` is modelled by a fuelled recursive-descent parser over the JSON
  grammar (integer numerals; floats are outside the scope of the claims), and
  `json.dumps(..., ensure_ascii=False)` by a serializer with the same escaping
  rules for the characters the library escapes.
* Fallible Python code (functions that can raise) returns `Except String _`.
-/

namespace AgentsDemo

abbrev Str := List Char

/-- ASCII fragment of the whitespace set stripped by Python `str.strip()`. -/
def isPySpace (c : Char) : Bool :=
  c = ' ' || c = '\t' || c = '\n' || c = '\x0d' || c = '\x0b' || c = '\x0c'

/-- Python `str.strip()` (ASCII whitespace fragment). -/
def pyStrip (s : Str) : Str :=
  ((s.dropWhile isPySpace).reverse.dropWhile isPySpace).reverse

/-- Python `str.rstrip(set)`: drop trailing characters belonging to `set`. -/
def pyRstrip (s : Str) (set : List Char) : Str :=
  (s.reverse.dropWhile (fun c => set.contains c)).reverse

/-- Python `str.lower()` (ASCII fragment). -/
def pyLower (s : Str) : Str := s.map Char.toLower

/-- Sub-U+0100 fragment of the Python regex class `\w` (Unicode alphanumerics
and underscore): ASCII alphanumerics, `_`, and the Latin-1 word characters
`ª ² ³ µ ¹ º ¼ ½ ¾ À…Ö Ø…ö ø…ÿ` — exactly the code points below U+0100 that
Python's `re.match` accepts for `\w`. In particular `â` (U+00E2) is a word
character, as it is in the program. -/
def isWordChar (c : Char) : Bool :=
  c.isAlphanum || c = '_' ||
  c.toNat = 0xAA || (0xB2 ≤ c.toNat && c.toNat ≤ 0xB3) || c.toNat = 0xB5 ||
  (0xB9 ≤ c.toNat && c.toNat ≤ 0xBA) || (0xBC ≤ c.toNat && c.toNat ≤ 0xBE) ||
  (0xC0 ≤ c.toNat && c.toNat ≤ 0xD6) || (0xD8 ≤ c.toNat && c.toNat ≤ 0xF6) ||
  (0xF8 ≤ c.toNat && c.toNat ≤ 0xFF)

/-- Characters allowed inside a token of the regex `\b[\w'-]+\b`:
`\w`, apostrophe and hyphen. -/
def isTokChar (c : Char) : Bool := isWordChar c || c = '\'' || c = '-'

/-- Trim a maximal `isTokChar` run to the span between its first and last `\w`
character; the `\b` anchors of `\b[\w'-]+\b` force a regex match to start and
end on a `\w` character. -/
def trimRun (r : Str) : Str :=
  ((r.dropWhile (fun c => !isWordChar c)).reverse.dropWhile (fun c => !isWordChar c)).reverse

/-- The matches the regex engine produces inside one maximal `isTokChar` run:
one token (the run trimmed to its outermost `\w` characters) when the run
contains a `\w` character, none otherwise. -/
def mkTok (r : Str) : List Str :=
  if r.any isWordChar then [trimRun r] else []

/-- One structural pass splitting a string into maximal `isTokChar` runs;
`acc` holds the (reversed) run currently being read. -/
def tokenizeAux : Str → Str → List Str
  | [], acc => mkTok acc.reverse
  | c :: cs, acc =>
    if isTokChar c then tokenizeAux cs (c :: acc)
    else mkTok acc.reverse ++ tokenizeAux cs []

/-- `re.findall(r"\b[\w'-]+\b", s)` (ASCII fragment): split `s` into maximal
runs of token characters and keep, per run, the single `\b`-anchored match. -/
def wordTokens (s : Str) : List Str := tokenizeAux s []

/-- `word_count` from `agents_demo.py`: `len(re.findall(r"\b[\w'-]+\b", s))`. -/
def word_count (s : Str) : Nat := (wordTokens s).length

/-- `" ".join(tokens)`. -/
def joinSp : List Str → Str
  | [] => []
  | [t] => t
  | t :: ts => t ++ ' ' :: joinSp ts

/-- The literal character set of `.rstrip(" ,;:â€”-")` at line 295 of
`agents_demo.py` (the source file stores the mojibake bytes
U+00E2, U+20AC, U+201D of a mis-decoded em dash). -/
def rstripSet : List Char := [' ', ',', ';', ':', 'â', '€', '”', '-']

/-- Lines 290–295 of `run_pipeline` applied to an already-selected summary
string: tokenize, and if more than 25 tokens, keep the first 25, join with
spaces and right-strip the punctuation set. -/
def repairSummary (s : Str) : Str :=
  let tokens := wordTokens s
  if tokens.length > 25 then pyRstrip (joinSp (tokens.take 25)) rstripSet else s

example : word_count "hello, world!".data = 2 := by decide
example : word_count "can't-stop won't".data = 2 := by decide
example : word_count "'-'".data = 0 := by decide
example : word_count "_".data = 1 := by decide
example : wordTokens "-a-b- c".data = ["a-b".data, "c".data] := by decide

/-! ## JSON values (the result type of Python `json.loads`) -/

/-- Python JSON values as produced by `json.loads`: `None`, `bool`, `int`
(float literals are outside the scope of the claims), `str`, `list`, `dict`
(kept as a key/value list in textual order; lookups take the last binding,
matching `dict` construction). -/
inductive Json where
  | null
  | bool (b : Bool)
  | num (n : Int)
  | str (s : Str)
  | arr (xs : List Json)
  | obj (kvs : List (Str × Json))

/-- Python truthiness of a JSON value (`bool(v)`). -/
def truthy : Json → Bool
  | .null => false
  | .bool b => b
  | .num n => n != 0
  | .str s => !s.isEmpty
  | .arr xs => !xs.isEmpty
  | .obj kvs => !kvs.isEmpty

def Json.isObjB : Json → Bool
  | .obj _ => true
  | _ => false

def Json.isArrB : Json → Bool
  | .arr _ => true
  | _ => false

def Json.isStrB : Json → Bool
  | .str _ => true
  | _ => false

def Json.asStr : Json → Str
  | .str s => s
  | _ => []

/-- `dict.get(k)`: `None` when the key is absent; the last binding wins,
as in a Python `dict` built from a key/value stream. -/
def jget (j : Json) (k : Str) : Option Json :=
  match j with
  | .obj kvs => (kvs.reverse.find? (fun kv => kv.1 == k)).map (fun kv => kv.2)
  | _ => none

/-- Escapes applied by Python `repr` on `str` (the fragment exercised here:
backslash, quote and common control characters). -/
def reprEsc : Str → Str
  | [] => []
  | c :: s =>
    (if c = '\\' || c = '\'' then ['\\', c]
     else if c = '\n' then ['\\', 'n']
     else if c = '\x0d' then ['\\', 'r']
     else if c = '\t' then ['\\', 't']
     else [c]) ++ reprEsc s

/-- Comma-space separated concatenation, as Python `repr` renders containers. -/
def sepComma : List Str → Str
  | [] => []
  | [x] => x
  | x :: xs => x ++ ',' :: ' ' :: sepComma xs

mutual

/-- Python `repr()` of a JSON value (string escaping on the fragment
`reprEsc` covers). -/
def pyRepr : Json → Str
  | .null => "None".data
  | .bool true => "True".data
  | .bool false => "False".data
  | .num n => (toString n).data
  | .str s => '\'' :: reprEsc s ++ ['\'']
  | .arr xs => '[' :: sepComma (pyReprList xs) ++ [']']
  | .obj kvs => '{' :: sepComma (pyReprKvs kvs) ++ ['}']

def pyReprList : List Json → List Str
  | [] => []
  | x :: xs => pyRepr x :: pyReprList xs

def pyReprKvs : List (Str × Json) → List Str
  | [] => []
  | kv :: kvs => ('\'' :: reprEsc kv.1 ++ '\'' :: ':' :: ' ' :: pyRepr kv.2) :: pyReprKvs kvs

end

/-- Python `str()` of a JSON value: identity on strings, `repr`-style
rendering otherwise (`str(None) = "None"`, `str(True) = "True"`, etc.). -/
def pyStr : Json → Str
  | .str s => s
  | j => pyRepr j

/-! ## `json.loads`: recursive-descent JSON parser -/

/-- The whitespace `json.loads` skips between tokens. -/
def isJsonWs (c : Char) : Bool := c = ' ' || c = '\t' || c = '\n' || c = '\x0d'

def skipWs (cs : Str) : Str := cs.dropWhile isJsonWs

def hexVal (c : Char) : Option Nat :=
  if '0' ≤ c ∧ c ≤ '9' then some (c.toNat - '0'.toNat)
  else if 'a' ≤ c ∧ c ≤ 'f' then some (c.toNat - 'a'.toNat + 10)
  else if 'A' ≤ c ∧ c ≤ 'F' then some (c.toNat - 'A'.toNat + 10)
  else none

def escDecode (e : Char) : Option Char :=
  if e = '"' then some '"'
  else if e = '\\' then some '\\'
  else if e = '/' then some '/'
  else if e = 'b' then some '\x08'
  else if e = 'f' then some '\x0c'
  else if e = 'n' then some '\n'
  else if e = 'r' then some '\x0d'
  else if e = 't' then some '\t'
  else none

/-- Body of a JSON string literal after the opening quote: returns the decoded
content and the remainder after the closing quote. Raw control characters are
rejected (`json.loads` default `strict=True`). -/
def parseStringBody : Str → Option (Str × Str)
  | [] => none
  | c :: rest =>
    if c = '"' then some ([], rest)
    else if c = '\\' then
      match rest with
      | [] => none
      | e :: rest2 =>
        if e = 'u' then
          match rest2 with
          | h1 :: h2 :: h3 :: h4 :: rest3 => do
            let a ← hexVal h1
            let b ← hexVal h2
            let c2 ← hexVal h3
            let d ← hexVal h4
            let sr ← parseStringBody rest3
            some (Char.ofNat (((a * 16 + b) * 16 + c2) * 16 + d) :: sr.1, sr.2)
          | _ => none
        else do
          let ec ← escDecode e
          let sr ← parseStringBody rest2
          some (ec :: sr.1, sr.2)
    else if 0x20 ≤ c.toNat then
      (parseStringBody rest).map (fun sr => (c :: sr.1, sr.2))
    else none

def digitsVal (ds : Str) : Nat := ds.foldl (fun n c => n * 10 + (c.toNat - '0'.toNat)) 0

/-- JSON natural-number literal: `0` or a nonzero digit followed by digits. -/
def parseNat (cs : Str) : Option (Nat × Str) :=
  let ds := cs.takeWhile Char.isDigit
  match ds with
  | [] => none
  | d :: ds' => if d = '0' ∧ ds' ≠ [] then none
                else some (digitsVal ds, cs.dropWhile Char.isDigit)

mutual

/-- One JSON value, fuelled recursive descent (`json.loads` grammar on the
integer-numeral fragment). -/
def parseVal : Nat → Str → Option (Json × Str)
  | 0, _ => none
  | fuel+1, cs =>
    match skipWs cs with
    | '{' :: rest =>
      match skipWs rest with
      | '}' :: r => some (.obj [], r)
      | _ => (parseMembers fuel rest).map (fun kr => (.obj kr.1, kr.2))
    | '[' :: rest =>
      match skipWs rest with
      | ']' :: r => some (.arr [], r)
      | _ => (parseItems fuel rest).map (fun xr => (.arr xr.1, xr.2))
    | '"' :: rest => (parseStringBody rest).map (fun sr => (.str sr.1, sr.2))
    | 't' :: 'r' :: 'u' :: 'e' :: rest => some (.bool true, rest)
    | 'f' :: 'a' :: 'l' :: 's' :: 'e' :: rest => some (.bool false, rest)
    | 'n' :: 'u' :: 'l' :: 'l' :: rest => some (.null, rest)
    | '-' :: rest => (parseNat rest).map (fun nr => (.num (-(nr.1 : Int)), nr.2))
    | other => (parseNat other).map (fun nr => (.num (nr.1 : Int), nr.2))

/-- Comma-separated items of a non-empty JSON array, up to and including `]`. -/
def parseItems : Nat → Str → Option (List Json × Str)
  | 0, _ => none
  | fuel+1, cs => do
    let vr ← parseVal fuel cs
    match skipWs vr.2 with
    | ',' :: r2 => do
      let xr ← parseItems fuel r2
      some (vr.1 :: xr.1, xr.2)
    | ']' :: r2 => some ([vr.1], r2)
    | _ => none

/-- Comma-separated members of a non-empty JSON object, up to and
including the closing brace. -/
def parseMembers : Nat → Str → Option (List (Str × Json) × Str)
  | 0, _ => none
  | fuel+1, cs =>
    match skipWs cs with
    | '"' :: rest => do
      let kr ← parseStringBody rest
      match skipWs kr.2 with
      | ':' :: r2 => do
        let vr ← parseVal fuel r2
        match skipWs vr.2 with
        | ',' :: r4 => do
          let mr ← parseMembers fuel r4
          some ((kr.1, vr.1) :: mr.1, mr.2)
        | '}' :: r4 => some ([(kr.1, vr.1)], r4)
        | _ => none
      | _ => none
    | _ => none

end

/-- `json.loads(text)`: parse one value, allow trailing whitespace only.
The fuel `2·length + 2` dominates the recursion depth (every two fuel steps
consume at least one character). -/
def jsonLoads (cs : Str) : Option Json :=
  match parseVal (2 * cs.length + 2) cs with
  | some vr => if skipWs vr.2 = [] then some vr.1 else none
  | none => none

/-! ## `extract_json` -/

/-- The backquote character (code 96). -/
def bq : Char := Char.ofNat 96

/-- Split a string at its first occurrence of a triple-backquote marker:
returns the part before the marker and the part after it. -/
def splitFirstMarker : Str → Option (Str × Str)
  | c1 :: c2 :: c3 :: rest =>
    if c1 = bq ∧ c2 = bq ∧ c3 = bq then some ([], rest)
    else (splitFirstMarker (c2 :: c3 :: rest)).map (fun ba => (c1 :: ba.1, ba.2))
  | _ => none

/-- `re.sub(r"```.*?```", "", text, flags=re.DOTALL)`: repeatedly delete the
leftmost non-greedy fenced block (opening marker, minimal body, closing
marker). Fuelled so the definition is structural; each deletion removes at
least six characters, so `length` fuel always suffices. -/
def stripFencesFuel : Nat → Str → Str
  | 0, cs => cs
  | fuel+1, cs =>
    match splitFirstMarker cs with
    | none => cs
    | some pr =>
      match splitFirstMarker pr.2 with
      | none => cs
      | some qr => pr.1 ++ stripFencesFuel fuel qr.2

def stripFences (cs : Str) : Str := stripFencesFuel cs.length cs

/-- The brace-depth scan of `extract_json` (lines 43–56): record every
maximal balanced-brace span that opens at depth 0, in textual order.
`acc` accumulates the characters of the currently open span. -/
def candScan : Str → Nat → Str → List Str → List Str
  | [], _, _, cands => cands
  | c :: cs, depth, acc, cands =>
    if c = '{' then
      if depth = 0 then candScan cs 1 ['{'] cands
      else candScan cs (depth + 1) (acc ++ ['{']) cands
    else if c = '}' then
      if depth = 0 then candScan cs 0 acc cands
      else if depth = 1 then candScan cs 0 [] (cands ++ [acc ++ ['}']])
      else candScan cs (depth - 1) (acc ++ ['}']) cands
    else
      candScan cs depth (if 0 < depth then acc ++ [c] else acc) cands

/-- Try `json.loads` on each candidate in order; first success wins. -/
def firstParse : List Str → Option Json
  | [] => none
  | c :: cs =>
    match jsonLoads c with
    | some v => some v
    | none => firstParse cs

/-- `extract_json` (lines 33–64): strip fenced blocks, try the whole stripped
text as JSON, then try each balanced-brace candidate; otherwise raise
`ValueError`. -/
def extract_json (text : Str) : Except String Json :=
  let t := stripFences text
  match jsonLoads (pyStrip t) with
  | some v => .ok v
  | none =>
    match firstParse (candScan t 0 [] []) with
    | some v => .ok v
    | none => .error "No JSON object found in model output."

example : jsonLoads "[1, 2]".data = some (.arr [.num 1, .num 2]) := rfl
example : jsonLoads "42".data = some (.num 42) := rfl
example : extract_json "42".data = .ok (.num 42) := rfl
example : extract_json "[1, 2]".data = .ok (.arr [.num 1, .num 2]) := rfl
example : extract_json "x \x7b\"a\": 1\x7d y".data = .ok (.obj [("a".data, .num 1)]) := rfl
example : extract_json "x \x7b\"a\": \"\x7d\"\x7d y".data
    = .error "No JSON object found in model output." := rfl
example : extract_json "no json here".data
    = .error "No JSON object found in model output." := rfl
example : pyStr (.num 5) = "5".data := rfl
example : pyStr .null = "None".data := rfl
example : pyStr (.bool true) = "True".data := rfl

/-! ## Stage schemas (pydantic models, lines 95–138) -/

structure PlannerOut where
  proposed_tags : List Str
  draft_summary : Str
deriving DecidableEq

structure ReviewerOut where
  approved_tags : List Str
  edited_summary : Str
deriving DecidableEq

structure PublishOut where
  tags : List Str
  summary : Str
deriving DecidableEq

/-- The pydantic `List[str]` field type: construction fails unless every
entry is a string (pydantic v2 does not coerce other JSON values to `str`). -/
def listStrings : List Json → Option (List Str)
  | [] => some []
  | .str s :: xs => (listStrings xs).map (fun ts => s :: ts)
  | _ => none

/-- `PlannerOut(**kwargs)` (lines 95–104): `proposed_tags` must be a list of
strings that is non-empty and whose entries are non-blank. -/
def PlannerOut.new (proposed_tags : List Json) (draft_summary : Str) : Except String PlannerOut :=
  match listStrings proposed_tags with
  | none => .error "proposed_tags entries must be strings"
  | some ts =>
    if ts.isEmpty || !ts.all (fun t => !(pyStrip t).isEmpty) then
      .error "proposed_tags must be a non-empty list of non-empty strings."
    else .ok ⟨ts, draft_summary⟩

/-- `ReviewerOut(**kwargs)` (lines 106–117): `approved_tags` must be a list of
exactly 3 strings, each non-blank. -/
def ReviewerOut.new (approved_tags : List Json) (edited_summary : Str) : Except String ReviewerOut :=
  match listStrings approved_tags with
  | none => .error "approved_tags entries must be strings"
  | some ts =>
    if ts.length ≠ 3 then .error "approved_tags must contain exactly 3 items."
    else if !ts.all (fun t => !(pyStrip t).isEmpty) then
      .error "approved_tags must be non-empty strings."
    else .ok ⟨ts, edited_summary⟩

/-- `PublishOut(**kwargs)` (lines 120–138): `tags` must be a list of exactly
3 strings, each non-blank; `summary` must have at most 25 word-tokens. -/
def PublishOut.new (tags : List Json) (summary : Str) : Except String PublishOut :=
  match listStrings tags with
  | none => .error "tags entries must be strings"
  | some ts =>
    if ts.length ≠ 3 then .error "tags must contain exactly 3 items."
    else if !ts.all (fun t => !(pyStrip t).isEmpty) then
      .error "tags must be non-empty strings."
    else if 25 < word_count summary then .error "summary must be <= 25 words."
    else .ok ⟨ts, summary⟩

/-- The invariant `ReviewerOut` carries after validation. -/
def reviewerValid (r : ReviewerOut) : Prop :=
  r.approved_tags.length = 3 ∧ ∀ t ∈ r.approved_tags, ¬(pyStrip t).isEmpty

instance (r : ReviewerOut) : Decidable (reviewerValid r) := by
  unfold reviewerValid; infer_instance

/-- The invariant the Publish schema checks, as a predicate on the record. -/
def publishValid (p : PublishOut) : Prop :=
  p.tags.length = 3 ∧ (∀ t ∈ p.tags, ¬(pyStrip t).isEmpty) ∧ word_count p.summary ≤ 25

instance (p : PublishOut) : Decidable (publishValid p) := by
  unfold publishValid; infer_instance

/-! ## Finalizing stage of `run_pipeline` (lines 261–308) -/

/-- Line 269–271: `tags = final_json.get("tags") or reviewer.approved_tags`,
then a non-list value is wrapped as `[str(tags)]`. The Python `or` takes the
right operand whenever the left is falsy (absent key, `None`, `[]`, `""`,
`0`, `{}`, `False`). -/
def candTags (fj : Json) (rtags : List Str) : List Json :=
  match jget fj "tags".data with
  | some v =>
    if truthy v then
      match v with
      | .arr xs => xs
      | w => [.str (pyStr w)]
    else rtags.map .str
  | none => rtags.map .str

/-- Lines 273–279: first-seen-order deduplication of the trimmed, stringified
tags, case-insensitive via a `seen` set of lowercased forms, skipping blanks. -/
def dedupLoop : List Json → List Str → List Str → List Str × List Str
  | [], seen, uniq => (uniq, seen)
  | t :: ts, seen, uniq =>
    let t' := pyStrip (pyStr t)
    if !t'.isEmpty && !seen.contains (pyLower t') then
      dedupLoop ts (seen ++ [pyLower t']) (uniq ++ [t'])
    else dedupLoop ts seen uniq

/-- Lines 280–287: top up from the reviewer's approved tags (raw, untrimmed),
skipping case-insensitive duplicates, stopping as soon as 3 are reached
(the length test runs after every iteration, append or not). -/
def topUp : List Str → List Str → List Str → List Str
  | [], _, uniq => uniq
  | t :: ts, seen, uniq =>
    if seen.contains (pyLower t) then
      if uniq.length = 3 then uniq else topUp ts seen uniq
    else
      if (uniq ++ [t]).length = 3 then uniq ++ [t]
      else topUp ts (seen ++ [pyLower t]) (uniq ++ [t])

/-- Lines 272–288: deduplicate, top up when fewer than 3 remain, keep the
first 3. -/
def repairTags (cand : List Json) (rtags : List Str) : List Str :=
  let us := dedupLoop cand [] []
  let uniq := if us.1.length < 3 then topUp rtags us.2 us.1 else us.1
  uniq.take 3

/-- Line 290: `summary = str(final_json.get("summary") or
reviewer.edited_summary).strip()`. -/
def candSummary (fj : Json) (rsum : Str) : Str :=
  pyStrip (match jget fj "summary".data with
    | some v => if truthy v then pyStr v else rsum
    | none => rsum)

/-- The reviewer-derived fallback object of line 266. -/
def reviewerFallbackJson (r : ReviewerOut) : Json :=
  .obj [("tags".data, .arr (r.approved_tags.map .str)),
        ("summary".data, .str r.edited_summary)]

/-- Lines 261–308 of `run_pipeline`: the FINALIZING / REPAIRING stages.
Extraction failure falls back to the reviewer-derived object; the repaired
tags and summary are validated as a `PublishOut`; on validation failure the
last-resort fallback of lines 300–305 is constructed. A non-dict extraction
result makes `final_json.get("tags")` raise `AttributeError`, which nothing
catches. -/
def finalizeStage (reviewer : ReviewerOut) (final_raw : Str) : Except String PublishOut :=
  let final_json : Json :=
    match extract_json final_raw with
    | .ok v => v
    | .error _ => reviewerFallbackJson reviewer
  match final_json with
  | .obj kvs =>
    let fj := Json.obj kvs
    let tags := repairTags (candTags fj reviewer.approved_tags) reviewer.approved_tags
    let summary := repairSummary (candSummary fj reviewer.edited_summary)
    match PublishOut.new (tags.map .str) summary with
    | .ok p => .ok p
    | .error _ =>
      let ftags := if !reviewer.approved_tags.isEmpty
                   then reviewer.approved_tags.take 3 else tags.take 3
      let fsum := if word_count reviewer.edited_summary ≤ 25
                  then reviewer.edited_summary
                  else joinSp ((wordTokens summary).take 25)
      PublishOut.new (ftags.map .str) fsum
  | _ => .error "AttributeError: object has no attribute get"

example :
    repairTags [.str "A".data] ["A".data, "a".data, "b".data]
      = ["A".data, "b".data] := by decide
example :
    repairTags [] ["A".data, "a".data, "b".data] = ["A".data, "b".data] := by decide
example :
    repairTags [.str "x".data] ["x".data, " A".data, "b".data]
      = ["x".data, " A".data, "b".data] := by decide
example :
    repairTags [.str " x ".data, .str "X".data, .num 5, .null, .bool true]
        ["A".data, "B".data, "C".data]
      = ["x".data, "5".data, "None".data] := by decide
example :
    finalizeStage ⟨["a".data, "b".data, "c".data], "ok".data⟩ "[1, 2]".data
      = .error "AttributeError: object has no attribute get" := rfl
example :
    finalizeStage ⟨["Lamport Clocks".data, "Distributed Systems".data, "Ordering".data],
        "Explains Lamport clocks for ordering events in distributed systems.".data⟩
      "I think the result should be great, thanks!".data
    = .ok ⟨["Lamport Clocks".data, "Distributed Systems".data, "Ordering".data],
        "Explains Lamport clocks for ordering events in distributed systems.".data⟩ := rfl
example :
    finalizeStage ⟨["A".data, "B".data, "C".data], "short.".data⟩
      "\x7b\"tags\": [\"a\", \"a\", \"b\"], \"summary\": \"u v w x y z aa ab ac ad ae af ag ah ai aj ak al am an ao ap aq ar as at au av aw ax\"\x7d".data
    = .ok ⟨["a".data, "b".data, "C".data],
        "u v w x y z aa ab ac ad ae af ag ah ai aj ak al am an ao ap aq ar as".data⟩ := rfl
example :
    finalizeStage ⟨["A".data, "a".data, "b".data], "fine summary.".data⟩
      "\x7b\"tags\": [], \"summary\": \"\"\x7d".data
    = .ok ⟨["A".data, "a".data, "b".data], "fine summary.".data⟩ := rfl

/-! ## Tokenizer lemmas -/

/-- Whether a string starts with a `\w` character. -/
def headWord : Str → Bool
  | [] => false
  | c :: _ => isWordChar c

/-- Shape of every string `re.findall(r"\b[\w'-]+\b", ·)` can produce:
non-empty, token characters throughout, `\w` at both ends. -/
def validTok (t : Str) : Bool :=
  !t.isEmpty && t.all isTokChar && headWord t && headWord t.reverse

theorem dropWhile_cons_of_neg {p : Char → Bool} {x : Char} {xs : Str} (h : p x = false) :
    List.dropWhile p (x :: xs) = x :: xs := by
  simp [List.dropWhile, h]

theorem dropWhile_not_of_any {p : Char → Bool} :
    ∀ l : Str, l.any p = true →
      ∃ x xs, l.dropWhile (fun c => !p c) = x :: xs ∧ p x = true := by
  intro l hl
  induction l with
  | nil => simp at hl
  | cons c cs ih =>
    by_cases hc : p c = true
    · exact ⟨c, cs, by simp [List.dropWhile, hc], hc⟩
    · have hc' : p c = false := by simpa using hc
      have : cs.any p = true := by simpa [List.any_cons, hc'] using hl
      obtain ⟨x, xs, hx, hpx⟩ := ih this
      exact ⟨x, xs, by simpa [List.dropWhile, hc'] using hx, hpx⟩

theorem head_of_prefix {t l : Str} {a : Char} {rest : Str}
    (hp : t <+: l) (hl : l = a :: rest) (ht : t ≠ []) :
    ∃ t', t = a :: t' := by
  obtain ⟨u, hu⟩ := hp
  subst hl
  cases t with
  | nil => exact absurd rfl ht
  | cons b t' =>
    refine ⟨t', ?_⟩
    have : b = a := by
      have := hu
      simp only [List.cons_append] at this
      exact (List.cons.injEq _ _ _ _ ▸ this).1
    rw [this]

theorem trimRun_validTok {r : Str} (hall : r.all isTokChar = true)
    (hany : r.any isWordChar = true) : validTok (trimRun r) = true := by
  obtain ⟨x, xs, hx, hwx⟩ := dropWhile_not_of_any r hany
  set r1 := r.dropWhile (fun c => !isWordChar c) with hr1
  have hany1 : r1.reverse.any isWordChar = true := by
    refine List.any_eq_true.mpr ⟨x, ?_, hwx⟩
    rw [hx]; simp
  obtain ⟨y, ys, hy, hwy⟩ := dropWhile_not_of_any r1.reverse hany1
  have htrim : trimRun r = (y :: ys).reverse := by
    rw [trimRun, ← hr1, hy]
  have hsuff : (y :: ys) <:+ r1.reverse := hy ▸ List.dropWhile_suffix _
  have hpref : (y :: ys).reverse <+: r1 := by
    have := hsuff.reverse
    simpa using this
  have hne : (y :: ys).reverse ≠ [] := by simp
  obtain ⟨t', ht'⟩ := head_of_prefix hpref hx hne
  have hsub1 : List.Sublist r1 r := List.dropWhile_sublist _
  have hsub2 : List.Sublist (y :: ys).reverse r1 := hpref.sublist
  rw [validTok, htrim]
  simp only [Bool.and_eq_true]
  refine ⟨⟨⟨?_, ?_⟩, ?_⟩, ?_⟩
  · simp
  · refine List.all_eq_true.mpr ?_
    intro c hc
    have hcr : c ∈ r := hsub1.subset (hsub2.subset hc)
    exact List.all_eq_true.mp hall c hcr
  · rw [ht']; simpa [headWord] using hwx
  · simp [headWord, hwy]

theorem mem_mkTok_validTok {r t : Str} (hall : r.all isTokChar = true)
    (ht : t ∈ mkTok r) : validTok t = true := by
  unfold mkTok at ht
  by_cases hany : r.any isWordChar = true
  · rw [if_pos hany] at ht
    simp only [List.mem_singleton] at ht
    subst ht
    exact trimRun_validTok hall hany
  · rw [if_neg hany] at ht
    simp at ht

theorem validTok_of_mem_tokenizeAux :
    ∀ (s acc : Str), acc.all isTokChar = true →
      ∀ t ∈ tokenizeAux s acc, validTok t = true := by
  intro s
  induction s with
  | nil =>
    intro acc hacc t ht
    exact mem_mkTok_validTok (by simpa using hacc) ht
  | cons c cs ih =>
    intro acc hacc t ht
    by_cases hc : isTokChar c = true
    · rw [tokenizeAux, if_pos hc] at ht
      exact ih (c :: acc) (by simp [hc, hacc]) t ht
    · rw [tokenizeAux, if_neg hc] at ht
      rcases List.mem_append.mp ht with h | h
      · exact mem_mkTok_validTok (by simpa using hacc) h
      · exact ih [] rfl t h

theorem validTok_of_mem_wordTokens {s t : Str} (ht : t ∈ wordTokens s) :
    validTok t = true :=
  validTok_of_mem_tokenizeAux s [] rfl t ht

theorem tokenizeAux_append_run :
    ∀ (t : Str) (s' acc : Str), t.all isTokChar = true →
      tokenizeAux (t ++ s') acc = tokenizeAux s' (t.reverse ++ acc) := by
  intro t
  induction t with
  | nil => intro s' acc _; simp
  | cons c t' ih =>
    intro s' acc hall
    have hall' : isTokChar c = true ∧ t'.all isTokChar = true := by
      simpa [List.all_cons] using hall
    have hc := hall'.1
    have ht' := hall'.2
    rw [List.cons_append, tokenizeAux, if_pos hc, ih _ _ ht']
    congr 1
    simp

theorem mkTok_self {t : Str} (h : validTok t = true) : mkTok t = [t] := by
  obtain ⟨⟨⟨hne, hall⟩, hhead⟩, hlast⟩ := by simpa [validTok] using h
  obtain ⟨c, t', rfl⟩ : ∃ c t', t = c :: t' := by
    cases t with
    | nil => simp at hne
    | cons c t' => exact ⟨c, t', rfl⟩
  have hwc : isWordChar c = true := by simpa [headWord] using hhead
  have hany : (c :: t').any isWordChar = true := by simp [hwc]
  have hdrop1 : (c :: t').dropWhile (fun x => !isWordChar x) = c :: t' :=
    dropWhile_cons_of_neg (by simp [hwc])
  have hdrop2 : (c :: t').reverse.dropWhile (fun x => !isWordChar x) = (c :: t').reverse := by
    cases hrev : (c :: t').reverse with
    | nil => simp at hrev
    | cons d rest =>
      have hwd : isWordChar d = true := by
        have := hlast
        rw [hrev] at this
        simpa [headWord] using this
      exact dropWhile_cons_of_neg (by simp [hwd])
  rw [mkTok, if_pos hany, trimRun, hdrop1, hdrop2]
  simp

theorem tokenizeAux_nil (acc : Str) : tokenizeAux [] acc = mkTok acc.reverse := rfl

theorem wordTokens_joinSp :
    ∀ toks : List Str, (∀ t ∈ toks, validTok t = true) →
      wordTokens (joinSp toks) = toks := by
  intro toks
  induction toks with
  | nil => intro _; rfl
  | cons t rest ih =>
    intro hv
    have hvt : validTok t = true := hv t (by simp)
    have hvt' := by simpa [validTok] using hvt
    have hall : t.all isTokChar = true := List.all_eq_true.mpr hvt'.1.1.2
    cases rest with
    | nil =>
      show tokenizeAux (joinSp [t]) [] = [t]
      have hjt : joinSp [t] = t ++ [] := by simp [joinSp]
      rw [hjt, tokenizeAux_append_run t [] [] hall, tokenizeAux_nil]
      rw [List.append_nil, List.reverse_reverse]
      exact mkTok_self hvt
    | cons t2 rest2 =>
      show tokenizeAux (joinSp (t :: t2 :: rest2)) [] = t :: t2 :: rest2
      have hj : joinSp (t :: t2 :: rest2) = t ++ ' ' :: joinSp (t2 :: rest2) := rfl
      rw [hj, tokenizeAux_append_run t _ [] hall]
      show tokenizeAux (' ' :: joinSp (t2 :: rest2)) (t.reverse ++ []) = t :: t2 :: rest2
      rw [tokenizeAux, if_neg (by decide)]
      rw [List.append_nil, List.reverse_reverse, mkTok_self hvt]
      have hrest := ih (fun u hu => hv u (List.mem_cons_of_mem _ hu))
      show [t] ++ wordTokens (joinSp (t2 :: rest2)) = t :: t2 :: rest2
      rw [hrest]
      rfl

theorem validTok_ne_nil {t : Str} (h : validTok t = true) : t ≠ [] := by
  intro hnil
  subst hnil
  simp [validTok] at h

theorem joinSp_ne_nil {t : Str} {rest : List Str} (ht : validTok t = true) :
    joinSp (t :: rest) ≠ [] := by
  cases rest with
  | nil => exact validTok_ne_nil ht
  | cons t2 rest2 =>
    show t ++ ' ' :: joinSp (t2 :: rest2) ≠ []
    simp

theorem headWord_append_left {a : Str} (b : Str) (ha : a ≠ []) :
    headWord (a ++ b) = headWord a := by
  cases a with
  | nil => exact absurd rfl ha
  | cons c cs => rfl

theorem headWord_reverse_joinSp :
    ∀ toks : List Str, toks ≠ [] → (∀ t ∈ toks, validTok t = true) →
      headWord (joinSp toks).reverse = true := by
  intro toks
  induction toks with
  | nil => intro h; exact absurd rfl h
  | cons t rest ih =>
    intro _ hv
    have hvt : validTok t = true := hv t (by simp)
    cases rest with
    | nil =>
      show headWord (joinSp [t]).reverse = true
      have : joinSp [t] = t := rfl
      rw [this]
      have hvt' := by simpa [validTok] using hvt
      exact hvt'.2
    | cons t2 rest2 =>
      have hrest : headWord (joinSp (t2 :: rest2)).reverse = true :=
        ih (by simp) (fun u hu => hv u (List.mem_cons_of_mem _ hu))
      show headWord (joinSp (t :: t2 :: rest2)).reverse = true
      have hj : joinSp (t :: t2 :: rest2) = t ++ ' ' :: joinSp (t2 :: rest2) := rfl
      have hne : (joinSp (t2 :: rest2)).reverse ≠ [] := by
        simpa using joinSp_ne_nil (hv t2 (by simp))
      rw [hj, List.reverse_append, List.reverse_cons,
        List.append_assoc, headWord_append_left _ hne]
      exact hrest

/-- The mojibake letter `â` (U+00E2) is both a `\w` character and a member of
the literal `rstrip` set of line 295 — so the right-strip after the 25-token
truncation is NOT always a no-op on word characters. -/
theorem mojibake_a_word_and_strippable :
    isWordChar 'â' = true ∧ rstripSet.contains 'â' = true := by decide

/-! ## Run counting (for the word-token characterization) -/

/-- Decomposition of a string into its maximal runs of `isTokChar`
characters, in order (`acc` holds the reversed run being read). -/
def runsAux : Str → Str → List Str
  | [], acc => if acc.isEmpty then [] else [acc.reverse]
  | c :: cs, acc =>
    if isTokChar c then runsAux cs (c :: acc)
    else (if acc.isEmpty then [] else [acc.reverse]) ++ runsAux cs []

/-- The maximal `isTokChar` runs of a string. -/
def tokRuns (s : Str) : List Str := runsAux s []

theorem mkTok_length_filter (r : Str) :
    (mkTok r).length
      = ((if r.isEmpty then ([] : List Str) else [r]).filter
          (fun u => u.any isWordChar)).length := by
  cases r with
  | nil => rfl
  | cons c rest =>
    rw [mkTok]
    by_cases h : (c :: rest).any isWordChar = true
    · rw [if_pos h]
      simp [h]
    · rw [if_neg h]
      have h' : (c :: rest).any isWordChar = false := by simpa using h
      simp [h']

theorem tokenizeAux_length_runsAux :
    ∀ (s acc : Str),
      (tokenizeAux s acc).length
        = ((runsAux s acc).filter (fun u => u.any isWordChar)).length := by
  intro s
  induction s with
  | nil =>
    intro acc
    rw [tokenizeAux_nil, runsAux]
    have := mkTok_length_filter acc.reverse
    by_cases hacc : acc.isEmpty = true
    · rw [if_pos hacc]
      have : acc = [] := by simpa [List.isEmpty_iff] using hacc
      subst this
      rfl
    · rw [if_neg hacc]
      have hrev : acc.reverse.isEmpty = false := by
        simp only [List.isEmpty_eq_false] at hacc ⊢
        simpa using hacc
      rw [this, if_neg (by simp [hrev])]
  | cons c cs ih =>
    intro acc
    by_cases hc : isTokChar c = true
    · rw [tokenizeAux, if_pos hc, runsAux, if_pos hc]
      exact ih _
    · rw [tokenizeAux, if_neg hc, runsAux, if_neg hc,
        List.length_append, List.filter_append, List.length_append, ih []]
      congr 1
      have := mkTok_length_filter acc.reverse
      by_cases hacc : acc.isEmpty = true
      · have : acc = [] := by simpa [List.isEmpty_iff] using hacc
        subst this
        simp [mkTok]
      · have hrev : acc.reverse.isEmpty = false := by
          simp only [List.isEmpty_eq_false] at hacc ⊢
          simpa using hacc
        rw [this, if_neg (by simp [hrev])]
        rw [if_neg (by simpa [List.isEmpty_eq_false] using hacc)]

theorem word_count_eq_word_runs (s : Str) :
    word_count s = ((tokRuns s).filter (fun u => u.any isWordChar)).length :=
  tokenizeAux_length_runsAux s []

/-- The word-token character class exactly as the spec's glossary words it:
alphanumerics, apostrophes and hyphens (note: no underscore). -/
def isSpecTokChar (c : Char) : Bool := c.isAlphanum || c = '\'' || c = '-'

/-- Number of maximal runs of a character class `p` (`inRun` records whether
the previous character belonged to the class). -/
def runCountAux (p : Char → Bool) : Str → Bool → Nat
  | [], _ => 0
  | c :: cs, inRun =>
    if p c then (if inRun then 0 else 1) + runCountAux p cs true
    else runCountAux p cs false

/-- The count the spec's sentence describes: the number of maximal runs of
alphanumerics, apostrophes and hyphens. -/
def specRunCount (s : Str) : Nat := runCountAux isSpecTokChar s false

example : specRunCount "'-'".data = 1 := by decide
example : word_count "'-'".data = 0 := by decide

/-! ## Brace-scan lemmas (extraction of a balanced span) -/

/-- Net brace balance of a string: open braces minus close braces. -/
def netBrace (s : Str) : Int := (s.count '{' : Int) - (s.count '}' : Int)

theorem netBrace_nil : netBrace [] = 0 := rfl

theorem netBrace_cons (c : Char) (s : Str) :
    netBrace (c :: s)
      = (if c = '{' then 1 else if c = '}' then (-1 : Int) else 0) + netBrace s := by
  unfold netBrace
  by_cases h1 : c = '{'
  · subst h1
    rw [if_pos rfl]
    simp [List.count_cons]
    ring
  · by_cases h2 : c = '}'
    · subst h2
      rw [if_neg h1, if_pos rfl]
      simp [List.count_cons, Ne.symm h1]
      ring
    · rw [if_neg h1, if_neg h2]
      simp only [List.count_cons, beq_iff_eq, if_neg h1, if_neg h2]
      push_cast
      ring

/-- The property of a serialized object's span that makes the depth scan of
`extract_json` recover exactly it: it opens with a brace, is balanced, and
every proper non-empty prefix is still open (depth at least 1) — i.e. braces
inside string literals do not unbalance the character-level count. -/
def minimalSpan (s : Str) : Prop :=
  s.head? = some '{' ∧ netBrace s = 0 ∧
    ∀ p ∈ s.inits, p ≠ [] → p ≠ s → 1 ≤ netBrace p

instance (s : Str) : Decidable (minimalSpan s) := by
  unfold minimalSpan; infer_instance

theorem cons_prefix_cons {c : Char} {p l : Str} (h : p <+: l) :
    (c :: p) <+: (c :: l) := by
  obtain ⟨t, rfl⟩ := h
  exact ⟨t, rfl⟩

theorem candScan_append_noBrace :
    ∀ (pre rest acc : Str) (cands : List Str),
      (∀ c ∈ pre, c ≠ '{' ∧ c ≠ '}') →
      candScan (pre ++ rest) 0 acc cands = candScan rest 0 acc cands := by
  intro pre
  induction pre with
  | nil => intro rest acc cands _; rfl
  | cons c pre' ih =>
    intro rest acc cands h
    have hc := h c (by simp)
    show candScan (c :: (pre' ++ rest)) 0 acc cands = _
    rw [candScan, if_neg hc.1, if_neg hc.2, if_neg (by omega : ¬0 < 0)]
    exact ih rest acc cands (fun d hd => h d (List.mem_cons_of_mem _ hd))

theorem candScan_minimal_aux :
    ∀ (body : Str) (d : Nat) (acc rest : Str) (cands : List Str),
      1 ≤ d →
      (∀ p ∈ body.inits, p ≠ body → 1 ≤ (d : Int) + netBrace p) →
      ((d : Int) + netBrace body = 0) →
      candScan (body ++ rest) d acc cands
        = candScan rest 0 [] (cands ++ [acc ++ body]) := by
  intro body
  induction body with
  | nil =>
    intro d acc rest cands hd hpref hbal
    exfalso
    rw [netBrace_nil] at hbal
    omega
  | cons c body' ih =>
    intro d acc rest cands hd hpref hbal
    have hpref' : ∀ p ∈ body'.inits, p ≠ body' →
        1 ≤ (d : Int) + netBrace (c :: p) := by
      intro p hp hne
      refine hpref (c :: p) ?_ (fun h => hne (by injection h))
      rw [List.mem_inits] at hp ⊢
      exact cons_prefix_cons hp
    have hbal' : (d : Int) + netBrace (c :: body') = 0 := hbal
    show candScan (c :: (body' ++ rest)) d acc cands = _
    by_cases h1 : c = '{'
    · subst h1
      rw [candScan, if_pos rfl, if_neg (by omega : ¬d = 0)]
      have hrec := ih (d + 1) (acc ++ ['{']) rest cands (by omega)
        (by
          intro p hp hne
          have := hpref' p hp hne
          rw [netBrace_cons, if_pos rfl] at this
          push_cast
          omega)
        (by
          rw [netBrace_cons, if_pos rfl] at hbal'
          push_cast
          omega)
      rw [hrec, List.append_assoc]
      rfl
    · by_cases h2 : c = '}'
      · subst h2
        by_cases hd1 : d = 1
        · subst hd1
          have hbody' : body' = [] := by
            by_contra hne
            have hmem : [] ∈ body'.inits := by
              rw [List.mem_inits]
              exact List.nil_prefix
            have := hpref' [] hmem (Ne.symm hne)
            rw [netBrace_cons, if_neg (by decide), if_pos rfl, netBrace_nil] at this
            omega
          subst hbody'
          show candScan ('}' :: rest) 1 acc cands = _
          rw [candScan, if_neg (by decide), if_pos rfl,
            if_neg (by omega : ¬(1 : Nat) = 0), if_pos rfl]
        · rw [candScan, if_neg (by decide : ¬ '}' = '{'), if_pos rfl,
            if_neg (by omega : ¬d = 0), if_neg hd1]
          have hrec := ih (d - 1) (acc ++ ['}']) rest cands (by omega)
            (by
              intro p hp hne
              have := hpref' p hp hne
              rw [netBrace_cons, if_neg (by decide), if_pos rfl] at this
              have hcast : ((d - 1 : Nat) : Int) = (d : Int) - 1 := by omega
              rw [hcast]
              omega)
            (by
              rw [netBrace_cons, if_neg (by decide), if_pos rfl] at hbal'
              have hcast : ((d - 1 : Nat) : Int) = (d : Int) - 1 := by omega
              rw [hcast]
              omega)
          rw [hrec, List.append_assoc]
          rfl
      · rw [candScan, if_neg h1, if_neg h2, if_pos (by omega : 0 < d)]
        have hrec := ih d (acc ++ [c]) rest cands hd
          (by
            intro p hp hne
            have := hpref' p hp hne
            rw [netBrace_cons, if_neg h1, if_neg h2] at this
            omega)
          (by
            rw [netBrace_cons, if_neg h1, if_neg h2] at hbal'
            omega)
        rw [hrec, List.append_assoc]
        rfl

theorem candScan_span (s rest acc : Str) (cands : List Str) (hmin : minimalSpan s) :
    candScan (s ++ rest) 0 acc cands = candScan rest 0 [] (cands ++ [s]) := by
  obtain ⟨hhead, hbal, hpref⟩ := hmin
  obtain ⟨body, rfl⟩ : ∃ body, s = '{' :: body := by
    cases s with
    | nil => simp at hhead
    | cons c b =>
      refine ⟨b, ?_⟩
      have : c = '{' := by simpa using hhead
      rw [this]
  show candScan ('{' :: (body ++ rest)) 0 acc cands = _
  rw [candScan, if_pos rfl, if_pos rfl]
  have hrec := candScan_minimal_aux body 1 ['{'] rest cands (by omega)
    (by
      intro p hp hne
      have hmem : ('{' :: p) ∈ ('{' :: body).inits := by
        rw [List.mem_inits] at hp ⊢
        exact cons_prefix_cons hp
      have := hpref ('{' :: p) hmem (by simp) (fun h => hne (by injection h))
      rw [netBrace_cons, if_pos rfl] at this
      push_cast
      omega)
    (by
      rw [netBrace_cons, if_pos rfl] at hbal
      push_cast
      omega)
  rw [hrec]
  rfl

theorem candScan_noBrace_tail (post acc : Str) (cands : List Str)
    (h : ∀ c ∈ post, c ≠ '{' ∧ c ≠ '}') : candScan post 0 acc cands = cands := by
  have heq := candScan_append_noBrace post [] acc cands h
  rw [List.append_nil] at heq
  rw [heq]
  rfl

theorem stripFencesFuel_no_marker {cs : Str} (fuel : Nat)
    (h : splitFirstMarker cs = none) : stripFencesFuel fuel cs = cs := by
  cases fuel with
  | zero => rfl
  | succ n => rw [stripFencesFuel, h]

theorem stripFences_of_no_marker {cs : Str} (h : splitFirstMarker cs = none) :
    stripFences cs = cs := stripFencesFuel_no_marker _ h

theorem extract_json_eq (text : Str) :
    extract_json text
      = match jsonLoads (pyStrip (stripFences text)) with
        | some v => .ok v
        | none =>
          match firstParse (candScan (stripFences text) 0 [] []) with
          | some v => .ok v
          | none => .error "No JSON object found in model output." := rfl

def isOk {α : Type} : Except String α → Bool
  | .ok _ => true
  | .error _ => false

/-! ## Serialization (`json.dumps` of the Publish record) and round-trip -/

def hexDigitChar (n : Nat) : Char :=
  if n < 10 then Char.ofNat ('0'.toNat + n) else Char.ofNat ('a'.toNat + n - 10)

/-- The escapes `json.dumps(..., ensure_ascii=False)` applies inside string
literals: quote, backslash, and control characters (named or `\u00XX`);
all other characters pass through unescaped. -/
def escChar (c : Char) : Str :=
  if c = '"' then ['\\', '"']
  else if c = '\\' then ['\\', '\\']
  else if c = '\n' then ['\\', 'n']
  else if c = '\t' then ['\\', 't']
  else if c = '\x0d' then ['\\', 'r']
  else if c = '\x08' then ['\\', 'b']
  else if c = '\x0c' then ['\\', 'f']
  else if c.toNat < 32 then
    ['\\', 'u', '0', '0', hexDigitChar (c.toNat / 16), hexDigitChar (c.toNat % 16)]
  else [c]

def escAll : Str → Str
  | [] => []
  | c :: s => escChar c ++ escAll s

/-- A JSON string literal as `json.dumps` emits it. -/
def dumpStr (s : Str) : Str := '"' :: (escAll s ++ ['"'])

/-- The JSON value of `publish.model_dump()`. -/
def pubJson (p : PublishOut) : Json :=
  .obj [("tags".data, .arr (p.tags.map .str)), ("summary".data, .str p.summary)]

/-- `json.dumps(publish.model_dump(), ensure_ascii=False)` (line 308), with
the library's default `", "` and `": "` separators. -/
def pubDumps (p : PublishOut) : Str :=
  ['{'] ++ dumpStr "tags".data ++ [':', ' ', '['] ++ sepComma (p.tags.map dumpStr)
    ++ [']', ',', ' '] ++ dumpStr "summary".data ++ [':', ' '] ++ dumpStr p.summary ++ ['}']

example :
    pubDumps ⟨["a".data, "b".data, "c".data], "s".data⟩
      = "\x7b\"tags\": [\"a\", \"b\", \"c\"], \"summary\": \"s\"\x7d".data := rfl

theorem hexVal_hexDigitChar {n : Nat} (h : n < 16) :
    hexVal (hexDigitChar n) = some n := by
  interval_cases n <;> rfl

theorem parseStringBody_u (d1 d2 : Char) (m1 m2 : Nat) (cs : Str)
    (h1 : hexVal d1 = some m1) (h2 : hexVal d2 = some m2) :
    parseStringBody ('\\' :: 'u' :: '0' :: '0' :: d1 :: d2 :: cs)
      = (parseStringBody cs).map
          (fun sr => (Char.ofNat (((0 * 16 + 0) * 16 + m1) * 16 + m2) :: sr.1, sr.2)) := by
  have h0 : hexVal '0' = some 0 := rfl
  rw [parseStringBody.eq_def]
  simp [h0, h1, h2]
  cases parseStringBody cs with
  | none => rfl
  | some sr => rfl

theorem parseStringBody_escAll :
    ∀ (s rest : Str), parseStringBody (escAll s ++ '"' :: rest) = some (s, rest) := by
  intro s
  induction s with
  | nil =>
    intro rest
    show parseStringBody ('"' :: rest) = some ([], rest)
    rw [parseStringBody.eq_def]
    simp
  | cons c s' ih =>
    intro rest
    show parseStringBody ((escChar c ++ escAll s') ++ '"' :: rest) = some (c :: s', rest)
    rw [List.append_assoc]
    by_cases h1 : c = '"'
    · subst h1
      show parseStringBody ('\\' :: '"' :: (escAll s' ++ '"' :: rest))
        = some ('"' :: s', rest)
      rw [parseStringBody.eq_def]
      simp [escDecode, ih]
    · by_cases h2 : c = '\\'
      · subst h2
        show parseStringBody ('\\' :: '\\' :: (escAll s' ++ '"' :: rest))
          = some ('\\' :: s', rest)
        rw [parseStringBody.eq_def]
        simp [escDecode, ih]
      · by_cases h3 : c = '\n'
        · subst h3
          show parseStringBody ('\\' :: 'n' :: (escAll s' ++ '"' :: rest))
            = some ('\n' :: s', rest)
          rw [parseStringBody.eq_def]
          simp [escDecode, ih]
        · by_cases h4 : c = '\t'
          · subst h4
            show parseStringBody ('\\' :: 't' :: (escAll s' ++ '"' :: rest))
              = some ('\t' :: s', rest)
            rw [parseStringBody.eq_def]
            simp [escDecode, ih]
          · by_cases h5 : c = '\x0d'
            · subst h5
              show parseStringBody ('\\' :: 'r' :: (escAll s' ++ '"' :: rest))
                = some ('\x0d' :: s', rest)
              rw [parseStringBody.eq_def]
              simp [escDecode, ih]
            · by_cases h6 : c = '\x08'
              · subst h6
                show parseStringBody ('\\' :: 'b' :: (escAll s' ++ '"' :: rest))
                  = some ('\x08' :: s', rest)
                rw [parseStringBody.eq_def]
                simp [escDecode, ih]
              · by_cases h7 : c = '\x0c'
                · subst h7
                  show parseStringBody ('\\' :: 'f' :: (escAll s' ++ '"' :: rest))
                    = some ('\x0c' :: s', rest)
                  rw [parseStringBody.eq_def]
                  simp [escDecode, ih]
                · by_cases h8 : c.toNat < 32
                  · have hesc : escChar c = ['\\', 'u', '0', '0',
                        hexDigitChar (c.toNat / 16), hexDigitChar (c.toNat % 16)] := by
                      rw [escChar, if_neg h1, if_neg h2, if_neg h3, if_neg h4,
                        if_neg h5, if_neg h6, if_neg h7, if_pos h8]
                    rw [hesc]
                    show parseStringBody ('\\' :: 'u' :: '0' :: '0'
                        :: hexDigitChar (c.toNat / 16) :: hexDigitChar (c.toNat % 16)
                        :: (escAll s' ++ '"' :: rest)) = some (c :: s', rest)
                    rw [parseStringBody_u _ _ _ _ _
                      (hexVal_hexDigitChar (by omega)) (hexVal_hexDigitChar (by omega))]
                    rw [ih]
                    show some (Char.ofNat (((0 * 16 + 0) * 16 + c.toNat / 16) * 16
                        + c.toNat % 16) :: s', rest) = some (c :: s', rest)
                    rw [show ((0 * 16 + 0) * 16 + c.toNat / 16) * 16 + c.toNat % 16
                      = c.toNat by omega]
                    rw [Char.ofNat_toNat]
                  · have hesc : escChar c = [c] := by
                      rw [escChar, if_neg h1, if_neg h2, if_neg h3, if_neg h4,
                        if_neg h5, if_neg h6, if_neg h7, if_neg h8]
                    rw [hesc]
                    show parseStringBody (c :: (escAll s' ++ '"' :: rest))
                      = some (c :: s', rest)
                    rw [parseStringBody.eq_def]
                    have h8' : 32 ≤ c.toNat := by omega
                    simp [h1, h2, h8', ih]

theorem skipWs_cons_neg {c : Char} {cs : Str} (h : isJsonWs c = false) :
    skipWs (c :: cs) = c :: cs := by
  simp [skipWs, List.dropWhile_cons, h]

theorem skipWs_cons_sp (cs : Str) : skipWs (' ' :: cs) = skipWs cs := by
  have h : isJsonWs ' ' = true := rfl
  simp [skipWs, List.dropWhile_cons, h]

/-- The one-step body of `parseVal` at successor fuel, as a plain function. -/
def parseValBody (fuel : Nat) (cs : Str) : Option (Json × Str) :=
  match skipWs cs with
  | '{' :: rest =>
    match skipWs rest with
    | '}' :: r => some (.obj [], r)
    | _ => (parseMembers fuel rest).map (fun kr => (.obj kr.1, kr.2))
  | '[' :: rest =>
    match skipWs rest with
    | ']' :: r => some (.arr [], r)
    | _ => (parseItems fuel rest).map (fun xr => (.arr xr.1, xr.2))
  | '"' :: rest => (parseStringBody rest).map (fun sr => (.str sr.1, sr.2))
  | 't' :: 'r' :: 'u' :: 'e' :: rest => some (.bool true, rest)
  | 'f' :: 'a' :: 'l' :: 's' :: 'e' :: rest => some (.bool false, rest)
  | 'n' :: 'u' :: 'l' :: 'l' :: rest => some (.null, rest)
  | '-' :: rest => (parseNat rest).map (fun nr => (.num (-(nr.1 : Int)), nr.2))
  | other => (parseNat other).map (fun nr => (.num (nr.1 : Int), nr.2))

theorem parseVal_succ (fuel : Nat) (cs : Str) :
    parseVal (fuel + 1) cs = parseValBody fuel cs := rfl

/-- The one-step body of `parseItems` at successor fuel. -/
def parseItemsBody (fuel : Nat) (cs : Str) : Option (List Json × Str) := do
  let vr ← parseVal fuel cs
  match skipWs vr.2 with
  | ',' :: r2 => do
    let xr ← parseItems fuel r2
    some (vr.1 :: xr.1, xr.2)
  | ']' :: r2 => some ([vr.1], r2)
  | _ => none

theorem parseItems_succ (fuel : Nat) (cs : Str) :
    parseItems (fuel + 1) cs = parseItemsBody fuel cs := rfl

/-- The one-step body of `parseMembers` at successor fuel. -/
def parseMembersBody (fuel : Nat) (cs : Str) : Option (List (Str × Json) × Str) :=
  match skipWs cs with
  | '"' :: rest => do
    let kr ← parseStringBody rest
    match skipWs kr.2 with
    | ':' :: r2 => do
      let vr ← parseVal fuel r2
      match skipWs vr.2 with
      | ',' :: r4 => do
        let mr ← parseMembers fuel r4
        some ((kr.1, vr.1) :: mr.1, mr.2)
      | '}' :: r4 => some ([(kr.1, vr.1)], r4)
      | _ => none
    | _ => none
  | _ => none

theorem parseMembers_succ (fuel : Nat) (cs : Str) :
    parseMembers (fuel + 1) cs = parseMembersBody fuel cs := rfl

theorem parseVal_str (m : Nat) {cs : Str} (s rest : Str)
    (h : skipWs cs = '"' :: (escAll s ++ '"' :: rest)) :
    parseVal (m + 1) cs = some (.str s, rest) := by
  rw [parseVal_succ]
  unfold parseValBody
  rw [h]
  show (parseStringBody (escAll s ++ '"' :: rest)).map (fun sr => (Json.str sr.1, sr.2))
    = some (Json.str s, rest)
  rw [parseStringBody_escAll]
  rfl

theorem parseItems_last (f : Nat) {cs : Str} (t rest : Str)
    (h : skipWs cs = '"' :: (escAll t ++ '"' :: ']' :: rest)) :
    parseItems (f + 2) cs = some ([.str t], rest) := by
  rw [parseItems_succ]
  unfold parseItemsBody
  rw [parseVal_str f t (']' :: rest) h]
  rw [Option.bind_eq_bind, Option.some_bind]
  rw [skipWs_cons_neg (by decide)]
  rfl

theorem parseItems_cons (f : Nat) {cs cs2 : Str} (t : Str)
    (h : skipWs cs = '"' :: (escAll t ++ '"' :: ',' :: cs2)) :
    parseItems (f + 2) cs
      = (parseItems (f + 1) cs2).bind (fun xr => some (Json.str t :: xr.1, xr.2)) := by
  rw [parseItems_succ]
  unfold parseItemsBody
  rw [parseVal_str f t (',' :: cs2) h]
  rw [Option.bind_eq_bind, Option.some_bind]
  rw [skipWs_cons_neg (by decide)]
  rfl

theorem parseItems_three (m : Nat) (t1 t2 t3 rest : Str) :
    parseItems (m + 4)
      ('"' :: (escAll t1 ++ '"' :: ',' :: ' ' :: '"' :: (escAll t2 ++ '"' :: ',' :: ' ' ::
        '"' :: (escAll t3 ++ '"' :: ']' :: rest))))
      = some ([.str t1, .str t2, .str t3], rest) := by
  rw [parseItems_cons (m + 2) t1 (skipWs_cons_neg (by decide))]
  have h2 : skipWs (' ' :: '"' :: (escAll t2 ++ '"' :: ',' :: ' ' ::
      '"' :: (escAll t3 ++ '"' :: ']' :: rest)))
      = '"' :: (escAll t2 ++ '"' :: ',' :: ' ' ::
        '"' :: (escAll t3 ++ '"' :: ']' :: rest)) := by
    rw [skipWs_cons_sp]
    exact skipWs_cons_neg (by decide)
  rw [parseItems_cons (m + 1) t2 h2]
  have h3 : skipWs (' ' :: '"' :: (escAll t3 ++ '"' :: ']' :: rest))
      = '"' :: (escAll t3 ++ '"' :: ']' :: rest) := by
    rw [skipWs_cons_sp]
    exact skipWs_cons_neg (by decide)
  rw [parseItems_last m t3 rest h3]
  rfl

theorem parseVal_arr3 (m : Nat) {cs : Str} (t1 t2 t3 rest : Str)
    (h : skipWs cs = '[' ::
      ('"' :: (escAll t1 ++ '"' :: ',' :: ' ' :: '"' :: (escAll t2 ++ '"' :: ',' :: ' ' ::
        '"' :: (escAll t3 ++ '"' :: ']' :: rest))))) :
    parseVal (m + 5) cs = some (.arr [.str t1, .str t2, .str t3], rest) := by
  rw [parseVal_succ]
  unfold parseValBody
  rw [h]
  show (match skipWs ('"' :: (escAll t1 ++ '"' :: ',' :: ' ' :: '"' ::
      (escAll t2 ++ '"' :: ',' :: ' ' :: '"' :: (escAll t3 ++ '"' :: ']' :: rest)))) with
    | ']' :: r => some (Json.arr [], r)
    | _ => (parseItems (m + 4) ('"' :: (escAll t1 ++ '"' :: ',' :: ' ' :: '"' ::
        (escAll t2 ++ '"' :: ',' :: ' ' :: '"' ::
          (escAll t3 ++ '"' :: ']' :: rest))))).map (fun xr => (Json.arr xr.1, xr.2)))
    = some (.arr [.str t1, .str t2, .str t3], rest)
  rw [skipWs_cons_neg (by decide)]
  show (parseItems (m + 4) ('"' :: (escAll t1 ++ '"' :: ',' :: ' ' :: '"' ::
      (escAll t2 ++ '"' :: ',' :: ' ' :: '"' ::
        (escAll t3 ++ '"' :: ']' :: rest))))).map (fun xr => (Json.arr xr.1, xr.2))
    = some (.arr [.str t1, .str t2, .str t3], rest)
  rw [parseItems_three]
  rfl

theorem parseMembers_last_str (m : Nat) {cs : Str} (k v rest : Str)
    (h : skipWs cs
      = '"' :: (escAll k ++ '"' :: ':' :: ' ' :: '"' :: (escAll v ++ '"' :: '}' :: rest))) :
    parseMembers (m + 2) cs = some ([(k, .str v)], rest) := by
  rw [parseMembers_succ]
  unfold parseMembersBody
  rw [h]
  split
  · rename_i rest1 heq
    injection heq with _ h1
    subst h1
    rw [parseStringBody_escAll]
    rw [Option.bind_eq_bind, Option.some_bind]
    rw [skipWs_cons_neg (by decide)]
    split
    · rename_i r2 heq2
      injection heq2 with _ h2
      subst h2
      have hv : skipWs (' ' :: '"' :: (escAll v ++ '"' :: '}' :: rest))
          = '"' :: (escAll v ++ '"' :: '}' :: rest) := by
        rw [skipWs_cons_sp]
        exact skipWs_cons_neg (by decide)
      rw [parseVal_str m v ('}' :: rest) hv]
      rw [Option.bind_eq_bind, Option.some_bind]
      rw [skipWs_cons_neg (by decide)]
      rfl
    · rename_i hne
      exact absurd rfl (hne _)
  · rename_i hne
    exact absurd rfl (hne _)

theorem parseMembers_pub (m : Nat) (t1 t2 t3 ssum rest : Str) :
    parseMembers (m + 6)
      ('"' :: ('t' :: 'a' :: 'g' :: 's' :: '"' :: ':' :: ' ' :: '[' ::
        '"' :: (escAll t1 ++ '"' :: ',' :: ' ' :: '"' :: (escAll t2 ++ '"' :: ',' :: ' ' ::
        '"' :: (escAll t3 ++ '"' :: ']' :: ',' :: ' ' ::
        '"' :: ('s' :: 'u' :: 'm' :: 'm' :: 'a' :: 'r' :: 'y' :: '"' :: ':' :: ' ' ::
        '"' :: (escAll ssum ++ '"' :: '}' :: rest)))))))
      = some ([("tags".data, .arr [.str t1, .str t2, .str t3]),
               ("summary".data, .str ssum)], rest) := by
  rw [parseMembers_succ]
  unfold parseMembersBody
  rw [skipWs_cons_neg (by decide)]
  split
  · rename_i rest1 heq
    injection heq with _ h1
    subst h1
    have hk : parseStringBody ('t' :: 'a' :: 'g' :: 's' :: '"' :: ':' :: ' ' :: '[' ::
        '"' :: (escAll t1 ++ '"' :: ',' :: ' ' :: '"' :: (escAll t2 ++ '"' :: ',' :: ' ' ::
        '"' :: (escAll t3 ++ '"' :: ']' :: ',' :: ' ' ::
        '"' :: ('s' :: 'u' :: 'm' :: 'm' :: 'a' :: 'r' :: 'y' :: '"' :: ':' :: ' ' ::
        '"' :: (escAll ssum ++ '"' :: '}' :: rest))))))
        = some ("tags".data, ':' :: ' ' :: '[' ::
        '"' :: (escAll t1 ++ '"' :: ',' :: ' ' :: '"' :: (escAll t2 ++ '"' :: ',' :: ' ' ::
        '"' :: (escAll t3 ++ '"' :: ']' :: ',' :: ' ' ::
        '"' :: ('s' :: 'u' :: 'm' :: 'm' :: 'a' :: 'r' :: 'y' :: '"' :: ':' :: ' ' ::
        '"' :: (escAll ssum ++ '"' :: '}' :: rest)))))) :=
      parseStringBody_escAll "tags".data _
    rw [hk]
    rw [Option.bind_eq_bind, Option.some_bind]
    rw [skipWs_cons_neg (by decide)]
    split
    · rename_i r2 heq2
      injection heq2 with _ h2
      subst h2
      have harr : skipWs (' ' :: '[' ::
          '"' :: (escAll t1 ++ '"' :: ',' :: ' ' :: '"' :: (escAll t2 ++ '"' :: ',' :: ' ' ::
          '"' :: (escAll t3 ++ '"' :: ']' :: ',' :: ' ' ::
          '"' :: ('s' :: 'u' :: 'm' :: 'm' :: 'a' :: 'r' :: 'y' :: '"' :: ':' :: ' ' ::
          '"' :: (escAll ssum ++ '"' :: '}' :: rest))))))
          = '[' :: ('"' :: (escAll t1 ++ '"' :: ',' :: ' ' :: '"' ::
            (escAll t2 ++ '"' :: ',' :: ' ' :: '"' :: (escAll t3 ++ '"' :: ']' ::
            (',' :: ' ' ::
            '"' :: ('s' :: 'u' :: 'm' :: 'm' :: 'a' :: 'r' :: 'y' :: '"' :: ':' :: ' ' ::
            '"' :: (escAll ssum ++ '"' :: '}' :: rest)))))))  := by
        rw [skipWs_cons_sp]
        exact skipWs_cons_neg (by decide)
      rw [parseVal_arr3 m t1 t2 t3 _ harr]
      rw [Option.bind_eq_bind, Option.some_bind]
      rw [skipWs_cons_neg (by decide)]
      split
      · rename_i r4 heq4
        injection heq4 with _ h4
        subst h4
        have hsum : skipWs (' ' ::
            '"' :: ('s' :: 'u' :: 'm' :: 'm' :: 'a' :: 'r' :: 'y' :: '"' :: ':' :: ' ' ::
            '"' :: (escAll ssum ++ '"' :: '}' :: rest)))
            = '"' :: ('s' :: 'u' :: 'm' :: 'm' :: 'a' :: 'r' :: 'y' :: '"' :: ':' :: ' ' ::
            '"' :: (escAll ssum ++ '"' :: '}' :: rest)) := by
          rw [skipWs_cons_sp]
          exact skipWs_cons_neg (by decide)
        have hlast := @parseMembers_last_str (m + 3)
          (' ' :: '"' :: ('s' :: 'u' :: 'm' :: 'm' :: 'a' :: 'r' :: 'y' :: '"' ::
            ':' :: ' ' :: '"' :: (escAll ssum ++ '"' :: '}' :: rest)))
          "summary".data ssum rest hsum
        rw [hlast]
        rfl
      · rename_i heqbad
        injection heqbad with hbad
        exact absurd hbad (by decide)
      · rename_i hne1 hne2
        exact absurd rfl (hne1 _)
    · rename_i hne
      exact absurd rfl (hne _)
  · rename_i hne
    exact absurd rfl (hne _)

theorem parseVal_pub (m : Nat) (t1 t2 t3 ssum : Str) :
    parseVal (m + 7)
      ('{' :: '"' :: ('t' :: 'a' :: 'g' :: 's' :: '"' :: ':' :: ' ' :: '[' ::
        '"' :: (escAll t1 ++ '"' :: ',' :: ' ' :: '"' :: (escAll t2 ++ '"' :: ',' :: ' ' ::
        '"' :: (escAll t3 ++ '"' :: ']' :: ',' :: ' ' ::
        '"' :: ('s' :: 'u' :: 'm' :: 'm' :: 'a' :: 'r' :: 'y' :: '"' :: ':' :: ' ' ::
        '"' :: (escAll ssum ++ '"' :: '}' :: [])))))))
      = some (.obj [("tags".data, .arr [.str t1, .str t2, .str t3]),
                    ("summary".data, .str ssum)], []) := by
  rw [parseVal_succ]
  unfold parseValBody
  rw [skipWs_cons_neg (by decide)]
  show (match skipWs ('"' :: ('t' :: 'a' :: 'g' :: 's' :: '"' :: ':' :: ' ' :: '[' ::
      '"' :: (escAll t1 ++ '"' :: ',' :: ' ' :: '"' :: (escAll t2 ++ '"' :: ',' :: ' ' ::
      '"' :: (escAll t3 ++ '"' :: ']' :: ',' :: ' ' ::
      '"' :: ('s' :: 'u' :: 'm' :: 'm' :: 'a' :: 'r' :: 'y' :: '"' :: ':' :: ' ' ::
      '"' :: (escAll ssum ++ '"' :: '}' :: []))))))) with
    | '}' :: r => some (Json.obj [], r)
    | _ => (parseMembers (m + 6)
        ('"' :: ('t' :: 'a' :: 'g' :: 's' :: '"' :: ':' :: ' ' :: '[' ::
        '"' :: (escAll t1 ++ '"' :: ',' :: ' ' :: '"' :: (escAll t2 ++ '"' :: ',' :: ' ' ::
        '"' :: (escAll t3 ++ '"' :: ']' :: ',' :: ' ' ::
        '"' :: ('s' :: 'u' :: 'm' :: 'm' :: 'a' :: 'r' :: 'y' :: '"' :: ':' :: ' ' ::
        '"' :: (escAll ssum ++ '"' :: '}' :: [])))))))).map
          (fun kr => (Json.obj kr.1, kr.2)))
    = some (.obj [("tags".data, .arr [.str t1, .str t2, .str t3]),
                  ("summary".data, .str ssum)], [])
  rw [skipWs_cons_neg (by decide)]
  show (parseMembers (m + 6)
      ('"' :: ('t' :: 'a' :: 'g' :: 's' :: '"' :: ':' :: ' ' :: '[' ::
      '"' :: (escAll t1 ++ '"' :: ',' :: ' ' :: '"' :: (escAll t2 ++ '"' :: ',' :: ' ' ::
      '"' :: (escAll t3 ++ '"' :: ']' :: ',' :: ' ' ::
      '"' :: ('s' :: 'u' :: 'm' :: 'm' :: 'a' :: 'r' :: 'y' :: '"' :: ':' :: ' ' ::
      '"' :: (escAll ssum ++ '"' :: '}' :: [])))))))).map
        (fun kr => (Json.obj kr.1, kr.2))
    = some (.obj [("tags".data, .arr [.str t1, .str t2, .str t3]),
                  ("summary".data, .str ssum)], [])
  rw [parseMembers_pub]
  rfl

theorem pubDumps_norm (t1 t2 t3 ssum : Str) :
    pubDumps ⟨[t1, t2, t3], ssum⟩
      = '{' :: '"' :: ('t' :: 'a' :: 'g' :: 's' :: '"' :: ':' :: ' ' :: '[' ::
        '"' :: (escAll t1 ++ '"' :: ',' :: ' ' :: '"' :: (escAll t2 ++ '"' :: ',' :: ' ' ::
        '"' :: (escAll t3 ++ '"' :: ']' :: ',' :: ' ' ::
        '"' :: ('s' :: 'u' :: 'm' :: 'm' :: 'a' :: 'r' :: 'y' :: '"' :: ':' :: ' ' ::
        '"' :: (escAll ssum ++ '"' :: '}' :: [])))))) := by
  simp [pubDumps, dumpStr, sepComma, escAll, escChar]

theorem jsonLoads_pub (t1 t2 t3 ssum : Str) :
    jsonLoads (pubDumps ⟨[t1, t2, t3], ssum⟩)
      = some (pubJson ⟨[t1, t2, t3], ssum⟩) := by
  have hlen : 3 ≤ (pubDumps ⟨[t1, t2, t3], ssum⟩).length := by
    rw [pubDumps_norm]
    simp
  obtain ⟨m, hm⟩ : ∃ m, 2 * (pubDumps ⟨[t1, t2, t3], ssum⟩).length + 2 = m + 7 :=
    ⟨2 * (pubDumps ⟨[t1, t2, t3], ssum⟩).length + 2 - 7, by omega⟩
  unfold jsonLoads
  rw [hm, pubDumps_norm, parseVal_pub]
  rfl

theorem pyStrip_brace_wrap (mid : Str) :
    pyStrip ('{' :: (mid ++ ['}'])) = '{' :: (mid ++ ['}']) := by
  rw [pyStrip, dropWhile_cons_of_neg (by decide)]
  rw [show ('{' :: (mid ++ ['}'])).reverse = '}' :: (mid.reverse ++ ['{']) from by simp]
  rw [dropWhile_cons_of_neg (by decide)]
  simp

theorem pyStrip_pubDumps (t1 t2 t3 ssum : Str) :
    pyStrip (pubDumps ⟨[t1, t2, t3], ssum⟩) = pubDumps ⟨[t1, t2, t3], ssum⟩ := by
  obtain ⟨mid, hmid⟩ : ∃ mid, pubDumps ⟨[t1, t2, t3], ssum⟩ = '{' :: (mid ++ ['}']) := by
    refine ⟨'"' :: 't' :: 'a' :: 'g' :: 's' :: '"' :: ':' :: ' ' :: '[' ::
      '"' :: (escAll t1 ++ '"' :: ',' :: ' ' :: '"' :: (escAll t2 ++ '"' :: ',' :: ' ' ::
      '"' :: (escAll t3 ++ '"' :: ']' :: ',' :: ' ' ::
      '"' :: ('s' :: 'u' :: 'm' :: 'm' :: 'a' :: 'r' :: 'y' :: '"' :: ':' :: ' ' ::
      '"' :: (escAll ssum ++ ['"']))))), ?_⟩
    rw [pubDumps_norm]
    simp
  rw [hmid, pyStrip_brace_wrap, ← hmid]

/-! ## Claim theorems -/

def c3Input : Str :=
  "a b c d e f g h i j k l m n o p q r s t u v w x y z".data

/-- A 26-word-token summary whose 25th token is `ââ`: the Latin-1 letter
`â` is a `\w` character (so `ââ` is a regex token) and is simultaneously in
the literal `rstrip` set of line 295 (the mojibake bytes of a mis-decoded
em dash). -/
def c3Bug : Str := "a a a a a a a a a a a a a a a a a a a a a a a a ââ x".data

/-- **C3**: the repair step does NOT truncate every over-long summary to
exactly 25 word-tokens. The `rstrip` set at line 295 is the mojibake
`" ,;:â€”-"` of the intended `" ,;:—-"`, and `â` (U+00E2) is itself a `\w`
character; on a 26-token summary whose 25th token is `ââ`, the right-strip
deletes the entire 25th token after the truncation, leaving 24 word-tokens
instead of the claimed 25. -/
theorem c3_repair_mojibake_loses_token :
    word_count c3Bug = 26 ∧
    repairSummary c3Bug = "a a a a a a a a a a a a a a a a a a a a a a a a".data ∧
    word_count (repairSummary c3Bug) = 24 := by
  refine ⟨by decide, by decide, by decide⟩

/-- **C10, counterexample**: on the string `'-'` the code's `word_count`
(the regex `\b[\w'-]+\b`) reports 0 tokens, while the spec's "number of
maximal runs of alphanumerics, apostrophes, or hyphens" is 1: the two
notions differ, so the claimed equality is false. -/
theorem c10_word_count_counterexample :
    word_count "'-'".data = 0 ∧ specRunCount "'-'".data = 1 ∧
    word_count "'-'".data ≠ specRunCount "'-'".data := by
  refine ⟨by decide, by decide, by decide⟩

/-- **C10, amended**: `word_count s` equals the number of maximal runs of
token characters (`\w`, apostrophe, hyphen) that contain at least one `\w`
character; this same tokenization backs both the Publish schema's 25-word cap
and the repair truncation. -/
theorem c10_word_count_amended (s sum2 : Str) (tags : List Json) :
    word_count s = ((tokRuns s).filter (fun u => u.any isWordChar)).length ∧
    (25 < (wordTokens s).length →
      repairSummary s = pyRstrip (joinSp ((wordTokens s).take 25)) rstripSet) ∧
    (isOk (PublishOut.new tags sum2) = true → word_count sum2 ≤ 25) := by
  refine ⟨word_count_eq_word_runs s, ?_, ?_⟩
  · intro h
    rw [repairSummary]
    simp only [if_pos h]
  · intro hok
    by_contra hgt
    have hgt' : 25 < word_count sum2 := by omega
    rw [PublishOut.new] at hok
    split at hok
    all_goals try split at hok
    all_goals try split at hok
    all_goals first
    | omega
    | simp [isOk] at hok

theorem listStrings_eq :
    ∀ tags : List Json,
      listStrings tags
        = if tags.all Json.isStrB then some (tags.map Json.asStr) else none := by
  intro tags
  induction tags with
  | nil => rfl
  | cons t ts ih =>
    cases t with
    | str s =>
      show (listStrings ts).map (fun us => s :: us)
          = if (Json.str s :: ts).all Json.isStrB
            then some ((Json.str s :: ts).map Json.asStr) else none
      rw [ih]
      by_cases hall : ts.all Json.isStrB = true
      · rw [if_pos hall, if_pos (by simp [Json.isStrB, hall])]
        rfl
      · rw [if_neg hall,
          if_neg (fun hcontra => hall (by simpa [List.all_cons, Json.isStrB] using hcontra))]
        rfl
    | null => simp [listStrings, Json.isStrB]
    | bool b => simp [listStrings, Json.isStrB]
    | num n => simp [listStrings, Json.isStrB]
    | arr xs => simp [listStrings, Json.isStrB]
    | obj kvs => simp [listStrings, Json.isStrB]

theorem contains_eq_mem_str {l : List Str} {a : Str} : l.contains a = true ↔ a ∈ l := by
  simp [List.contains, List.elem_iff]

theorem dropWhile_head_false {p : Char → Bool} :
    ∀ {l : Str} {x : Char} {xs : Str}, l.dropWhile p = x :: xs → p x = false := by
  intro l
  induction l with
  | nil => intro x xs h; simp [List.dropWhile] at h
  | cons c cs ih =>
    intro x xs h
    by_cases hc : p c = true
    · rw [List.dropWhile_cons, if_pos hc] at h
      exact ih h
    · rw [List.dropWhile_cons, if_neg hc] at h
      cases h
      simpa using hc

theorem pyStrip_head_false {s : Str} {x : Char} {xs : Str}
    (hu : pyStrip s = x :: xs) : isPySpace x = false := by
  set t := s.dropWhile isPySpace with ht
  set v := t.reverse.dropWhile isPySpace with hv
  have hpref : v.reverse <+: t := by
    have hsuff : v <:+ t.reverse := hv ▸ List.dropWhile_suffix _
    simpa using hsuff.reverse
  have hu' : v.reverse = x :: xs := hu
  obtain ⟨rest, hrest⟩ := hpref
  have hteq : t = x :: (xs ++ rest) := by
    rw [← hrest, hu']
    simp
  exact dropWhile_head_false (ht ▸ hteq)

theorem pyStrip_reverse_head_false {s : Str} {x : Char} {xs : Str}
    (hu : (pyStrip s).reverse = x :: xs) : isPySpace x = false := by
  have : (s.dropWhile isPySpace).reverse.dropWhile isPySpace = x :: xs := by
    rw [← hu, pyStrip, List.reverse_reverse]
  exact dropWhile_head_false this

theorem pyStrip_idem (s : Str) : pyStrip (pyStrip s) = pyStrip s := by
  cases hu : pyStrip s with
  | nil => rfl
  | cons c cs =>
    have hc : isPySpace c = false := pyStrip_head_false hu
    have h1 : (c :: cs).dropWhile isPySpace = c :: cs := dropWhile_cons_of_neg hc
    cases hr : (c :: cs).reverse with
    | nil => simp at hr
    | cons d ds =>
      have hd : isPySpace d = false := pyStrip_reverse_head_false (hu ▸ hr)
      rw [pyStrip, h1, hr, dropWhile_cons_of_neg hd, ← hr, List.reverse_reverse]

theorem pyStrip_nil : pyStrip [] = [] := rfl

/-! ## Repair-step invariants (dedup and top-up) -/

theorem dedupLoop_spec :
    ∀ (cand : List Json) (seen uniq : List Str),
      seen = uniq.map pyLower →
      (uniq.map pyLower).Nodup →
      (∀ t ∈ uniq, pyStrip t = t ∧ t ≠ []) →
      (dedupLoop cand seen uniq).2 = (dedupLoop cand seen uniq).1.map pyLower ∧
      ((dedupLoop cand seen uniq).1.map pyLower).Nodup ∧
      (∀ t ∈ (dedupLoop cand seen uniq).1, pyStrip t = t ∧ t ≠ []) ∧
      uniq.length ≤ (dedupLoop cand seen uniq).1.length := by
  intro cand
  induction cand with
  | nil =>
    intro seen uniq hseen hnd hprops
    exact ⟨hseen, hnd, hprops, Nat.le_refl _⟩
  | cons t ts ih =>
    intro seen uniq hseen hnd hprops
    show (dedupLoop (t :: ts) seen uniq).2 = _ ∧ _
    rw [dedupLoop]
    by_cases hg : (!(pyStrip (pyStr t)).isEmpty
        && !seen.contains (pyLower (pyStrip (pyStr t)))) = true
    · simp only [if_pos hg]
      have hg1 : (pyStrip (pyStr t)).isEmpty = false := by
        have := (Bool.and_eq_true _ _).mp hg
        simpa using this.1
      have hg2 : seen.contains (pyLower (pyStrip (pyStr t))) = false := by
        have := (Bool.and_eq_true _ _).mp hg
        simpa using this.2
      have hnotmem : pyLower (pyStrip (pyStr t)) ∉ uniq.map pyLower := by
        intro hmem
        rw [hseen] at hg2
        rw [contains_eq_mem_str.mpr hmem] at hg2
        simp at hg2
      refine ih _ _ ?_ ?_ ?_ |>.imp id (fun h2 => h2.imp id (fun h3 =>
        h3.imp id (fun h4 => by
          calc uniq.length ≤ (uniq ++ [pyStrip (pyStr t)]).length := by simp
          _ ≤ _ := h4)))
      · rw [hseen]
        simp
      · rw [List.map_append]
        refine List.Nodup.append hnd (by simp) ?_
        intro x hx hy
        simp only [List.map_cons, List.map_nil, List.mem_singleton] at hy
        subst hy
        exact hnotmem hx
      · intro u hu
        rcases List.mem_append.mp hu with h | h
        · exact hprops u h
        · simp only [List.mem_singleton] at h
          subst h
          refine ⟨pyStrip_idem _, ?_⟩
          intro hnil
          rw [hnil] at hg1
          simp at hg1
    · simp only [if_neg hg]
      exact ih _ _ hseen hnd hprops

theorem topUp_spec :
    ∀ (rts : List Str) (seen uniq : List Str),
      seen = uniq.map pyLower →
      (uniq.map pyLower).Nodup →
      (∀ t ∈ uniq, pyStrip t = t ∧ t ≠ []) →
      (∀ t ∈ rts, pyStrip t = t ∧ t ≠ []) →
      uniq.length < 3 →
      ((topUp rts seen uniq).map pyLower).Nodup ∧
      (∀ t ∈ topUp rts seen uniq, pyStrip t = t ∧ t ≠ []) ∧
      (topUp rts seen uniq).length ≤ 3 ∧
      uniq.map pyLower ⊆ (topUp rts seen uniq).map pyLower ∧
      ((topUp rts seen uniq).length = 3 ∨
        ∀ t ∈ rts, pyLower t ∈ (topUp rts seen uniq).map pyLower) := by
  intro rts
  induction rts with
  | nil =>
    intro seen uniq hseen hnd hprops _ hlt
    exact ⟨hnd, hprops, Nat.le_of_lt hlt, fun x hx => hx, Or.inr (by simp)⟩
  | cons t ts ih =>
    intro seen uniq hseen hnd hprops hrts hlt
    show ((topUp (t :: ts) seen uniq).map pyLower).Nodup ∧ _
    rw [topUp]
    by_cases hg : seen.contains (pyLower t) = true
    · rw [if_pos hg, if_neg (by omega : ¬uniq.length = 3)]
      have hmem : pyLower t ∈ uniq.map pyLower := by
        rw [hseen] at hg
        exact contains_eq_mem_str.mp hg
      obtain ⟨ihnd, ihprops, ihle, ihsub, ihor⟩ :=
        ih seen uniq hseen hnd hprops (fun u hu => hrts u (List.mem_cons_of_mem _ hu)) hlt
      refine ⟨ihnd, ihprops, ihle, ihsub, ?_⟩
      rcases ihor with h | h
      · exact Or.inl h
      · refine Or.inr ?_
        intro u hu
        rcases List.mem_cons.mp hu with rfl | hmem2
        · exact ihsub hmem
        · exact h u hmem2
    · rw [if_neg hg]
      have ht : pyStrip t = t ∧ t ≠ [] := hrts t (by simp)
      have hnotmem : pyLower t ∉ uniq.map pyLower := by
        intro hmem
        rw [hseen] at hg
        exact hg (contains_eq_mem_str.mpr hmem)
      have hnd' : ((uniq ++ [t]).map pyLower).Nodup := by
        rw [List.map_append]
        refine List.Nodup.append hnd (by simp) ?_
        intro x hx hy
        simp only [List.map_cons, List.map_nil, List.mem_singleton] at hy
        subst hy
        exact hnotmem hx
      have hprops' : ∀ u ∈ uniq ++ [t], pyStrip u = u ∧ u ≠ [] := by
        intro u hu
        rcases List.mem_append.mp hu with h | h
        · exact hprops u h
        · simp only [List.mem_singleton] at h
          subst h
          exact ht
      by_cases h3 : (uniq ++ [t]).length = 3
      · rw [if_pos h3]
        refine ⟨hnd', hprops', Nat.le_of_eq h3, ?_, Or.inl h3⟩
        intro x hx
        rw [List.map_append]
        exact List.mem_append_left _ hx
      · rw [if_neg h3]
        have hlt' : (uniq ++ [t]).length < 3 := by
          rw [List.length_append] at h3 ⊢
          simp only [List.length_cons, List.length_nil] at h3 ⊢
          omega
        obtain ⟨ihnd, ihprops, ihle, ihsub, ihor⟩ :=
          ih (seen ++ [pyLower t]) (uniq ++ [t]) (by rw [hseen]; simp) hnd' hprops'
            (fun u hu => hrts u (List.mem_cons_of_mem _ hu)) hlt'
        refine ⟨ihnd, ihprops, ihle, ?_, ?_⟩
        · intro x hx
          refine ihsub ?_
          rw [List.map_append]
          exact List.mem_append_left _ hx
        · rcases ihor with h | h
          · exact Or.inl h
          · refine Or.inr ?_
            intro u hu
            rcases List.mem_cons.mp hu with rfl | hmem2
            · refine ihsub ?_
              rw [List.map_append]
              refine List.mem_append_right _ ?_
              simp
            · exact h u hmem2

theorem repairTags_eq (cand : List Json) (rtags : List Str) :
    repairTags cand rtags
      = (if (dedupLoop cand [] []).1.length < 3
         then topUp rtags (dedupLoop cand [] []).2 (dedupLoop cand [] []).1
         else (dedupLoop cand [] []).1).take 3 := rfl

/-- **C2, counterexample**: the Reviewer result with tags `["A", "a", "b"]`
passes validation (3 non-blank strings), yet with candidate tags `["A"]` the
repair step returns only 2 tags — case-duplicate backstop tags defeat the
top-up, so "exactly 3" fails. -/
theorem c2_repair_counterexample :
    reviewerValid ⟨["A".data, "a".data, "b".data], "s".data⟩ ∧
    repairTags [.str "A".data] ["A".data, "a".data, "b".data]
      = ["A".data, "b".data] ∧
    (repairTags [.str "A".data] ["A".data, "a".data, "b".data]).length ≠ 3 :=
  ⟨by decide, by decide, by decide⟩

/-- **C2, amended**: if the Reviewer's 3 validated backstop tags are
additionally whitespace-trimmed and pairwise distinct case-insensitively,
then for every candidate tags list (duplicates, case variants, too few, too
many, non-string entries) the repair step yields exactly 3 tags that are
non-empty, trimmed, and pairwise distinct case-insensitively. -/
theorem c2_repair_yields_three_tags (cand : List Json) (rtags : List Str)
    (hlen : rtags.length = 3)
    (htags : ∀ t ∈ rtags, pyStrip t = t ∧ ¬(pyStrip t).isEmpty)
    (hnd : (rtags.map pyLower).Nodup) :
    (repairTags cand rtags).length = 3 ∧
    (∀ t ∈ repairTags cand rtags, pyStrip t = t ∧ t ≠ []) ∧
    ((repairTags cand rtags).map pyLower).Nodup := by
  have htags' : ∀ t ∈ rtags, pyStrip t = t ∧ t ≠ [] := by
    intro t ht
    obtain ⟨h1, h2⟩ := htags t ht
    refine ⟨h1, ?_⟩
    intro hnil
    exact h2 (by rw [hnil]; rfl)
  obtain ⟨hseen2, hnd2, hprops2, _⟩ := dedupLoop_spec cand [] [] rfl (by simp) (by simp)
  rw [repairTags_eq]
  by_cases hcase : (dedupLoop cand [] []).1.length < 3
  · rw [if_pos hcase]
    obtain ⟨tnd, tprops, tle, _, tor⟩ :=
      topUp_spec rtags _ _ hseen2 hnd2 hprops2 htags' hcase
    have hlen3 :
        (topUp rtags (dedupLoop cand [] []).2 (dedupLoop cand [] []).1).length = 3 := by
      rcases tor with h | h
      · exact h
      · have hsub : ∀ x ∈ rtags.map pyLower,
            x ∈ (topUp rtags (dedupLoop cand [] []).2 (dedupLoop cand [] []).1).map pyLower := by
          intro x hx
          obtain ⟨t, ht, rfl⟩ := List.mem_map.mp hx
          exact h t ht
        have hc1 : (rtags.map pyLower).toFinset.card
            ≤ ((topUp rtags (dedupLoop cand [] []).2
                (dedupLoop cand [] []).1).map pyLower).toFinset.card := by
          refine Finset.card_le_card ?_
          intro x hx
          rw [List.mem_toFinset] at hx ⊢
          exact hsub x hx
        have hc2 : (rtags.map pyLower).toFinset.card = 3 := by
          rw [List.toFinset_card_of_nodup hnd, List.length_map, hlen]
        have hc3 : ((topUp rtags (dedupLoop cand [] []).2
              (dedupLoop cand [] []).1).map pyLower).toFinset.card
            ≤ (topUp rtags (dedupLoop cand [] []).2 (dedupLoop cand [] []).1).length := by
          calc _ ≤ ((topUp rtags (dedupLoop cand [] []).2
              (dedupLoop cand [] []).1).map pyLower).length := List.toFinset_card_le _
          _ = _ := List.length_map _ _
        omega
    rw [List.take_of_length_le (Nat.le_of_eq hlen3)]
    exact ⟨hlen3, tprops, tnd⟩
  · rw [if_neg hcase]
    refine ⟨?_, ?_, ?_⟩
    · rw [List.length_take]
      omega
    · intro t ht
      exact hprops2 t ((List.take_sublist _ _).subset ht)
    · rw [List.map_take]
      exact hnd2.sublist (List.take_sublist _ _)

theorem c2_repair_yields_three_tags_witness :
    (repairTags [.str "x".data, .num 5, .str "x".data]
        ["A".data, "b".data, "c".data]).length = 3 ∧
    (∀ t ∈ repairTags [.str "x".data, .num 5, .str "x".data]
        ["A".data, "b".data, "c".data], pyStrip t = t ∧ t ≠ []) ∧
    ((repairTags [.str "x".data, .num 5, .str "x".data]
        ["A".data, "b".data, "c".data]).map pyLower).Nodup :=
  c2_repair_yields_three_tags _ _ (by decide) (by decide) (by decide)

/-- **C7**: constructing a Publish object succeeds exactly when `tags` has 3
entries, each a string that is non-blank after trimming, and the summary has
at most 25 word-tokens; in particular case-insensitive duplicate tags and an
empty summary are accepted. -/
theorem c7_publish_construction (tags : List Json) (summary : Str) :
    (isOk (PublishOut.new tags summary) = true ↔
      (tags.length = 3 ∧
        (∀ t ∈ tags, t.isStrB = true ∧ ¬(pyStrip t.asStr).isEmpty) ∧
        word_count summary ≤ 25)) ∧
    PublishOut.new [.str "A".data, .str "a".data, .str "a".data] []
      = .ok ⟨["A".data, "a".data, "a".data], []⟩ := by
  refine ⟨?_, rfl⟩
  rw [PublishOut.new, listStrings_eq]
  by_cases hall : tags.all Json.isStrB = true
  · rw [if_pos hall]
    show isOk (if (tags.map Json.asStr).length ≠ 3 then _ else _) = true ↔ _
    constructor
    · intro hok
      split at hok
      · simp [isOk] at hok
      · split at hok
        · simp [isOk] at hok
        · split at hok
          · simp [isOk] at hok
          · refine ⟨?_, ?_, by omega⟩
            · simpa using ‹¬(tags.map Json.asStr).length ≠ 3›
            · intro t ht
              refine ⟨List.all_eq_true.mp hall t ht, ?_⟩
              have hmem : t.asStr ∈ tags.map Json.asStr := List.mem_map_of_mem _ ht
              have h2 := ‹¬(!(tags.map Json.asStr).all fun u => !(pyStrip u).isEmpty) = true›
              have h3 : ((tags.map Json.asStr).all fun u => !(pyStrip u).isEmpty) = true := by
                simpa using h2
              have := List.all_eq_true.mp h3 _ hmem
              simpa using this
    · rintro ⟨h3, hmem, h25⟩
      rw [if_neg (by simpa using h3),
        if_neg ?_, if_neg (by omega)]
      · rfl
      · intro hcontra
        have hyy : ((tags.map Json.asStr).all fun u => !(pyStrip u).isEmpty) = true := by
          refine List.all_eq_true.mpr ?_
          intro u hu
          obtain ⟨t, ht, rfl⟩ := List.mem_map.mp hu
          simpa using (hmem t ht).2
        rw [hyy] at hcontra
        simp at hcontra
  · rw [if_neg hall]
    constructor
    · intro hok; simp [isOk] at hok
    · rintro ⟨_, hmem, _⟩
      exfalso
      refine hall (List.all_eq_true.mpr ?_)
      intro t ht
      exact (hmem t ht).1

/-- **C8, counterexample**: the Planner schema accepts a tag carrying leading
whitespace, so an accepted tag need not equal its trimmed form — the claimed
invariant "every tag is whitespace-trimmed" fails. -/
theorem c8_planner_counterexample :
    PlannerOut.new [.str " a".data] "s".data = .ok ⟨[" a".data], "s".data⟩ ∧
    pyStrip " a".data ≠ " a".data :=
  ⟨rfl, by decide⟩

/-- **C8, amended**: every PlannerResult accepted by the Planner schema has a
non-empty tag list whose entries are strings that are non-blank (non-empty
after trimming); they are not normalized to their trimmed forms. -/
theorem c8_planner_invariant (tags : List Json) (ds : Str) (p : PlannerOut)
    (h : PlannerOut.new tags ds = .ok p) :
    p.proposed_tags ≠ [] ∧ ∀ t ∈ p.proposed_tags, ¬(pyStrip t).isEmpty := by
  rw [PlannerOut.new] at h
  split at h
  · exact absurd h (by simp)
  · split at h
    · exact absurd h (by simp)
    · rename_i ts hts hcond
      have hp : p.proposed_tags = ts := by
        have := h
        simp only [Except.ok.injEq] at this
        rw [← this]
      have hcond' : ¬(ts.isEmpty = true ∨ (!ts.all fun t => !(pyStrip t).isEmpty) = true) := by
        simpa using hcond
      push_neg at hcond'
      constructor
      · rw [hp]
        simpa [List.isEmpty_iff] using hcond'.1
      · intro t ht
        rw [hp] at ht
        have h2 : (ts.all fun t => !(pyStrip t).isEmpty) = true := by
          simpa using hcond'.2
        simpa using List.all_eq_true.mp h2 t ht

theorem c8_planner_invariant_witness :
    (⟨["a".data], "s".data⟩ : PlannerOut).proposed_tags ≠ [] ∧
    ∀ t ∈ (⟨["a".data], "s".data⟩ : PlannerOut).proposed_tags, ¬(pyStrip t).isEmpty :=
  c8_planner_invariant [.str "a".data] "s".data _ rfl

/-- **C5, counterexample**: the text `x {"a": "}"} y` contains exactly one
syntactically valid top-level JSON object — the substring from index 2 to 11
parses as an object — surrounded by non-JSON noise, yet extraction raises
`ValueError`: the depth counter closes the candidate span at the `}` inside
the string literal. -/
theorem c5_extraction_counterexample :
    jsonLoads "\x7b\"a\": \"\x7d\"\x7d".data
      = some (.obj [("a".data, .str "\x7d".data)]) ∧
    "x \x7b\"a\": \"\x7d\"\x7d y".data
      = "x ".data ++ "\x7b\"a\": \"\x7d\"\x7d".data ++ " y".data ∧
    extract_json "x \x7b\"a\": \"\x7d\"\x7d y".data
      = .error "No JSON object found in model output." :=
  ⟨rfl, rfl, rfl⟩

/-- **C5, amended**: extraction does return the unique embedded top-level
JSON object, provided the noise carries no brace characters, the whole text
has no triple-backtick marker and does not itself parse as JSON, and the
object's span is brace-minimal (its character-level brace depth returns to 0
only at its final character, i.e. braces inside its string literals do not
unbalance the scan). -/
theorem c5_extraction_amended (pre s post : Str) (v : Json)
    (hpre : ∀ c ∈ pre, c ≠ '{' ∧ c ≠ '}')
    (hpost : ∀ c ∈ post, c ≠ '{' ∧ c ≠ '}')
    (hnm : splitFirstMarker (pre ++ s ++ post) = none)
    (hv : jsonLoads s = some v)
    (_hobj : v.isObjB = true)
    (hmin : minimalSpan s)
    (hfast : jsonLoads (pyStrip (pre ++ s ++ post)) = none) :
    extract_json (pre ++ s ++ post) = .ok v := by
  rw [extract_json_eq, stripFences_of_no_marker hnm, hfast]
  have hscan : candScan (pre ++ s ++ post) 0 [] [] = [s] := by
    rw [List.append_assoc, candScan_append_noBrace pre (s ++ post) [] [] hpre,
      candScan_span s post [] [] hmin]
    exact candScan_noBrace_tail post [] [s] hpost
  rw [hscan]
  show (match firstParse [s] with
    | some v => Except.ok v
    | none => Except.error "No JSON object found in model output.") = .ok v
  rw [firstParse, hv]

theorem c5_extraction_amended_witness :
    extract_json ("x ".data ++ "\x7b\"a\": 1\x7d".data ++ " y".data)
      = .ok (.obj [("a".data, .num 1)]) :=
  c5_extraction_amended "x ".data "\x7b\"a\": 1\x7d".data " y".data
    (.obj [("a".data, .num 1)])
    (by decide) (by decide) rfl rfl rfl (by decide) rfl

def c9Bad : PublishOut := ⟨["a".data, "b".data, "c".data], "``` x ```".data⟩

/-- Observable discriminator used to separate two extraction results:
the summary string carried by an extracted object. -/
def extractedSummary : Except String Json → Str
  | .ok v => ((jget v "summary".data).map Json.asStr).getD []
  | .error _ => []

/-- **C9, counterexample**: the Publish object with summary `"``` x ```"` is
valid, but `extract_json` on its canonical serialization first deletes the
fenced span (`re.sub` of step 1), then parses an object whose summary is the
empty string — not equivalent to the original. -/
theorem c9_roundtrip_counterexample :
    publishValid c9Bad ∧
    extract_json (pubDumps c9Bad)
      = .ok (.obj [("tags".data, .arr [.str "a".data, .str "b".data, .str "c".data]),
                   ("summary".data, .str [])]) ∧
    extract_json (pubDumps c9Bad) ≠ .ok (pubJson c9Bad) := by
  refine ⟨by decide, rfl, ?_⟩
  intro h
  have hg := congrArg extractedSummary h
  rw [show extractedSummary (extract_json (pubDumps c9Bad)) = [] from rfl] at hg
  exact absurd hg (by decide)

/-- **C9, amended**: for every valid Publish object whose serialized form
contains no triple-backquote marker, extraction applied to the canonical
serialization returns exactly the serialized object. -/
theorem c9_roundtrip (p : PublishOut) (hval : publishValid p)
    (hnm : splitFirstMarker (pubDumps p) = none) :
    extract_json (pubDumps p) = .ok (pubJson p) := by
  obtain ⟨tags, ssum⟩ := p
  obtain ⟨t1, t2, t3, rfl⟩ := List.length_eq_three.mp hval.1
  rw [extract_json_eq, stripFences_of_no_marker hnm, pyStrip_pubDumps, jsonLoads_pub]

theorem c9_roundtrip_witness :
    publishValid ⟨["a".data, "b".data, "c".data], "hi".data⟩ ∧
    splitFirstMarker (pubDumps ⟨["a".data, "b".data, "c".data], "hi".data⟩) = none ∧
    extract_json (pubDumps ⟨["a".data, "b".data, "c".data], "hi".data⟩)
      = .ok (pubJson ⟨["a".data, "b".data, "c".data], "hi".data⟩) :=
  ⟨by decide, rfl, c9_roundtrip _ (by decide) rfl⟩

/-- **C4** (code bug): `extract_json` can return a non-object JSON value: on
input `"42"` the whole-text fast path returns the integer 42, violating the
claimed object-or-`NoJsonFoundError` contract (and the function's own
`-> Dict[str, Any]` annotation). -/
theorem c4_extract_json_non_object :
    extract_json "42".data = .ok (.num 42) ∧ (Json.num 42).isObjB = false :=
  ⟨rfl, rfl⟩

/-- **C1** (code bug): with a validated Reviewer result, the Finalizing stage
aborts on the raw Finalizer text `"[1, 2]"`: extraction succeeds with a list
(a non-object value), so `final_json.get("tags")` raises an uncaught
`AttributeError` — abnormal termination is reachable from FINALIZING, and the
repair/fallback never runs. -/
theorem c1_finalizing_can_abort :
    reviewerValid ⟨["a".data, "b".data, "c".data], "ok".data⟩ ∧
    finalizeStage ⟨["a".data, "b".data, "c".data], "ok".data⟩ "[1, 2]".data
      = .error "AttributeError: object has no attribute get" :=
  ⟨by decide, rfl⟩

/-- **C6, counterexample**: a finalized `tags` field that is present and
array-like — the empty array — is NOT used: the Python `or` treats it as
falsy and substitutes the Reviewer's tags. Conversely, a present truthy
non-array value IS used (stringified) rather than the Reviewer's tags. -/
theorem c6_selection_counterexample :
    jget (.obj [("tags".data, .arr [])]) "tags".data = some (.arr []) ∧
    candTags (.obj [("tags".data, .arr [])]) ["a".data, "b".data, "c".data]
      = [.str "a".data, .str "b".data, .str "c".data] ∧
    candTags (.obj [("tags".data, .num 7)]) ["a".data, "b".data, "c".data]
      = [.str "7".data] :=
  ⟨rfl, rfl, rfl⟩

/-- **C6, amended**: the repair step uses the finalized `tags` field exactly
when it is present and truthy (for an array: non-empty); a present truthy
non-array value becomes the single stringified tag; otherwise (absent or
falsy, including the empty array) the Reviewer's approved tags are used. The
summary used is the stringified finalized `summary` field exactly when
present and truthy, else the Reviewer's edited summary; the choice is
trimmed either way. -/
theorem c6_selection (fj : Json) (rtags : List Str) (rsum : Str) :
    (∀ xs, jget fj "tags".data = some (.arr xs) → xs ≠ [] →
      candTags fj rtags = xs) ∧
    (∀ v, jget fj "tags".data = some v → truthy v = true → v.isArrB = false →
      candTags fj rtags = [.str (pyStr v)]) ∧
    ((jget fj "tags".data = none ∨
      (∃ v, jget fj "tags".data = some v ∧ truthy v = false)) →
      candTags fj rtags = rtags.map .str) ∧
    (∀ v, jget fj "summary".data = some v → truthy v = true →
      candSummary fj rsum = pyStrip (pyStr v)) ∧
    ((jget fj "summary".data = none ∨
      (∃ v, jget fj "summary".data = some v ∧ truthy v = false)) →
      candSummary fj rsum = pyStrip rsum) := by
  refine ⟨?_, ?_, ?_, ?_, ?_⟩
  · intro xs hget hne
    rw [candTags, hget]
    show (if truthy (Json.arr xs) = true then xs else rtags.map Json.str) = xs
    rw [if_pos (by simpa [truthy, List.isEmpty_eq_false] using hne)]
  · intro v hget htr harr
    cases v with
    | arr xs => simp [Json.isArrB] at harr
    | null => simp [truthy] at htr
    | bool b =>
      cases b with
      | false => simp [truthy] at htr
      | true => rw [candTags, hget]; rfl
    | num n =>
      rw [candTags, hget]
      show (if truthy (Json.num n) = true then [Json.str (pyStr (Json.num n))]
        else rtags.map Json.str) = [Json.str (pyStr (Json.num n))]
      rw [if_pos htr]
    | str s =>
      rw [candTags, hget]
      show (if truthy (Json.str s) = true then [Json.str (pyStr (Json.str s))]
        else rtags.map Json.str) = [Json.str (pyStr (Json.str s))]
      rw [if_pos htr]
    | obj kvs =>
      rw [candTags, hget]
      show (if truthy (Json.obj kvs) = true then [Json.str (pyStr (Json.obj kvs))]
        else rtags.map Json.str) = [Json.str (pyStr (Json.obj kvs))]
      rw [if_pos htr]
  · intro h
    rcases h with h | ⟨v, hget, hf⟩
    · rw [candTags, h]
    · cases v with
      | null => rw [candTags, hget]; rfl
      | bool b =>
        cases b with
        | false => rw [candTags, hget]; rfl
        | true => simp [truthy] at hf
      | num n =>
        rw [candTags, hget]
        show (if truthy (Json.num n) = true then [Json.str (pyStr (Json.num n))]
          else rtags.map Json.str) = rtags.map Json.str
        rw [if_neg (by simp [hf])]
      | str s =>
        rw [candTags, hget]
        show (if truthy (Json.str s) = true then [Json.str (pyStr (Json.str s))]
          else rtags.map Json.str) = rtags.map Json.str
        rw [if_neg (by simp [hf])]
      | arr xs =>
        rw [candTags, hget]
        show (if truthy (Json.arr xs) = true then xs
          else rtags.map Json.str) = rtags.map Json.str
        rw [if_neg (by simp [hf])]
      | obj kvs =>
        rw [candTags, hget]
        show (if truthy (Json.obj kvs) = true then [Json.str (pyStr (Json.obj kvs))]
          else rtags.map Json.str) = rtags.map Json.str
        rw [if_neg (by simp [hf])]
  · intro v hget htr
    rw [candSummary, hget]
    show pyStrip (if truthy v = true then pyStr v else rsum) = pyStrip (pyStr v)
    rw [if_pos htr]
  · intro h
    rcases h with h | ⟨v, hget, hf⟩
    · rw [candSummary, h]
    · rw [candSummary, hget]
      show pyStrip (if truthy v = true then pyStr v else rsum) = pyStrip rsum
      rw [if_neg (by simp [hf])]

theorem c6_selection_witness :
    candTags (.obj [("tags".data, .arr [.str "x".data])]) ["a".data, "b".data, "c".data]
      = [.str "x".data] ∧
    candTags (.obj [("tags".data, .num 7)]) ["a".data, "b".data, "c".data]
      = [.str (pyStr (.num 7))] ∧
    candTags (.obj []) ["a".data, "b".data, "c".data]
      = [Json.str "a".data, Json.str "b".data, Json.str "c".data] ∧
    candSummary (.obj [("summary".data, .str "hi".data)]) "r".data
      = pyStrip (pyStr (.str "hi".data)) ∧
    candSummary (.obj [("summary".data, .str [])]) "r".data = pyStrip "r".data := by
  have h1 := c6_selection (.obj [("tags".data, .arr [.str "x".data])])
    ["a".data, "b".data, "c".data] "r".data
  have h2 := c6_selection (.obj [("tags".data, .num 7)])
    ["a".data, "b".data, "c".data] "r".data
  have h3 := c6_selection (.obj []) ["a".data, "b".data, "c".data] "r".data
  have h4 := c6_selection (.obj [("summary".data, .str "hi".data)])
    ["a".data, "b".data, "c".data] "r".data
  have h5 := c6_selection (.obj [("summary".data, .str [])])
    ["a".data, "b".data, "c".data] "r".data
  refine ⟨h1.1 [.str "x".data] rfl (by simp), ?_, ?_, ?_, ?_⟩
  · exact h2.2.1 (.num 7) rfl (by decide) rfl
  · exact h3.2.2.1 (Or.inl rfl)
  · exact h4.2.2.2.1 (.str "hi".data) rfl (by decide)
  · exact h5.2.2.2.2 (Or.inr ⟨.str [], rfl, rfl⟩)

theorem c10_word_count_amended_witness :
    word_count "a b".data
        = ((tokRuns "a b".data).filter (fun u => u.any isWordChar)).length ∧
    repairSummary c3Input
        = pyRstrip (joinSp ((wordTokens c3Input).take 25)) rstripSet ∧
    word_count "ok then".data ≤ 25 := by
  have h1 := c10_word_count_amended "a b".data "ok then".data
    [.str "x".data, .str "y".data, .str "z".data]
  have h2 := c10_word_count_amended c3Input "ok then".data
    [.str "x".data, .str "y".data, .str "z".data]
  exact ⟨h1.1, h2.2.1 (by decide), h1.2.2 (by decide)⟩

end AgentsDemo
